import Mathlib

/-!
# libjxl-decode: the decode event loop and the BMP writer of `decode.cpp`

A shallow embedding of `DecodeJpegXlOneShot` and `WriteBMP` (src/libjxl-decode/decode.cpp),
followed by the properties of the specification proved about them.

Conventions of the embedding.
* A `uint8_t` is a `Fin 256`; a `std::vector<uint8_t>` is a `List Byte`.
* `size_t` values are natural numbers reduced modulo `2 ^ bits`, where `bits` is 32 or 64
  according to the build target; `DWORD`, `LONG` and `int` are 32 bits wide.
* An access outside a vector is undefined behaviour in C++; the embedding makes it `none`.
-/

namespace JxlDecode

/-! ## Machine words -/

/-- One element of a `std::vector<uint8_t>`. -/
abbrev Byte := Fin 256

/-- The build target. The program includes `windows.h` and `io.h`, so it is built for
Windows, where `size_t` is 32 bits wide on x86 and 64 bits wide on x64. -/
inductive Target where
  | x86
  | x64
  deriving DecidableEq, Repr

/-- Width in bits of `size_t`. -/
def Target.bits : Target → Nat
  | .x86 => 32
  | .x64 => 64

/-- Number of values of a `size_t`. -/
def Target.size (t : Target) : Nat := 2 ^ t.bits

/-- Addition `a + b` on `size_t`. -/
def addZ (t : Target) (a b : Nat) : Nat := (a + b) % t.size

/-- Multiplication `a * b` on `size_t`. -/
def mulZ (t : Target) (a b : Nat) : Nat := (a * b) % t.size

/-- Subtraction `a - b` on `size_t` (unsigned wrap-around). -/
def subZ (t : Target) (a b : Nat) : Nat := (a % t.size + t.size - b % t.size) % t.size

/-- Number of values of a 32-bit field (`DWORD`, `LONG`, `int`). -/
def DWORD_SIZE : Nat := 2 ^ 32

/-- Conversion of a value to `DWORD`. -/
def toDWORD (a : Nat) : Nat := a % DWORD_SIZE

/-- Subtraction `a - b` on `DWORD`. -/
def subDWORD (a b : Nat) : Nat := (a % DWORD_SIZE + DWORD_SIZE - b % DWORD_SIZE) % DWORD_SIZE

/-- The cast `(int)a` of an unsigned value: the low 32 bits read in two's complement. -/
def toInt (a : Nat) : Int :=
  if a % DWORD_SIZE < 2 ^ 31 then ((a % DWORD_SIZE : Nat) : Int)
  else ((a % DWORD_SIZE : Nat) : Int) - (DWORD_SIZE : Int)

/-- The `n` bytes that `fwrite(&field, n, 1, fp)` takes from a field holding `v`
(little-endian, as on every Windows target). -/
def leBytes : Nat → Nat → List Byte
  | 0, _ => []
  | n + 1, v => ⟨v % 256, Nat.mod_lt v (by decide)⟩ :: leBytes n (v / 256)

/-- Value of the `n`-byte little-endian field at offset `off` of a byte sequence
(bytes beyond the end count as 0). -/
def readLE (bytes : List Byte) (off : Nat) : Nat → Nat
  | 0 => 0
  | n + 1 => ((bytes[off]?).map Fin.val).getD 0 + 256 * readLE bytes (off + 1) n

/-! ## WriteBMP -/

/-- The flag `BOOL padding = (xsize % 4) == 0 ? TRUE : FALSE;` of `WriteBMP`. -/
def padding (xsize : Nat) : Bool := xsize % 4 == 0

/-- The `skip` of `WriteBMP`:
`if (FALSE == padding) skip = 4 - ((xsize * 24) >> 3) & 3; else skip = 0;`.
In C, `-` binds tighter than `&`, and `4` and `3` are converted to `size_t`, so the right-hand
side is `(4 - ((xsize * 24) >> 3)) & 3` on `size_t`. Its value is at most 3, so the
conversion to `int skip` and back to `size_t` where `skip` is used keeps it. -/
def skip (t : Target) (xsize : Nat) : Nat :=
  if padding xsize = false then
    (subZ t 4 ((mulZ t xsize 24) >>> 3)) &&& 3
  else
    0

/-- Modelled from the spec: the `BITMAPFILEHEADER` of `windows.h`, which is not part of the
repository. Section 6 of the spec gives the widths of its fields: `bfType` 2 bytes, `bfSize`
4, `bfReserved1` 2, `bfReserved2` 2, `bfOffBits` 4. Every field holds its bit pattern. -/
structure BITMAPFILEHEADER where
  bfType : Nat
  bfSize : Nat
  bfReserved1 : Nat
  bfReserved2 : Nat
  bfOffBits : Nat
  deriving DecidableEq, Repr

/-- Modelled from the spec: the `BITMAPINFOHEADER` of `windows.h`, which is not part of the
repository. Section 6 of the spec gives the widths of its fields: `biSize` 4 bytes, `biWidth`
4 (signed), `biHeight` 4 (signed), `biPlanes` 2, `biBitCount` 2, `biCompression` 4,
`biSizeImage` 4, `biXPelsPerMeter` 4 (signed), `biYPelsPerMeter` 4 (signed), `biClrUsed` 4,
`biClrImportant` 4. Every field holds its bit pattern. -/
structure BITMAPINFOHEADER where
  biSize : Nat
  biWidth : Nat
  biHeight : Nat
  biPlanes : Nat
  biBitCount : Nat
  biCompression : Nat
  biSizeImage : Nat
  biXPelsPerMeter : Nat
  biYPelsPerMeter : Nat
  biClrUsed : Nat
  biClrImportant : Nat
  deriving DecidableEq, Repr

/-- Modelled from the spec: `sizeof(BITMAPFILEHEADER)`, 14 in the spec (section 4.4). -/
def SIZEOF_BITMAPFILEHEADER : Nat := 14

/-- Modelled from the spec: `sizeof(BITMAPINFOHEADER)`, 40 in the spec (section 4.4). -/
def SIZEOF_BITMAPINFOHEADER : Nat := 40

/-- The value of `bmpheader.bfOffBits`:
`sizeof(BITMAPFILEHEADER) + sizeof(BITMAPINFOHEADER)` stored in a `DWORD`. -/
def bfOffBits : Nat := toDWORD (SIZEOF_BITMAPFILEHEADER + SIZEOF_BITMAPINFOHEADER)

/-- The `bmpheader` that `WriteBMP` fills in. `bfSize` is
`bmpheader.bfOffBits + xsize * ysize * 3 + skip * ysize`, evaluated on `size_t` and stored
in a `DWORD`. -/
def bmpheader (t : Target) (xsize ysize : Nat) : BITMAPFILEHEADER where
  bfType := 0x4d42
  bfReserved1 := 0
  bfReserved2 := 0
  bfOffBits := bfOffBits
  bfSize :=
    toDWORD (addZ t (addZ t bfOffBits (mulZ t (mulZ t xsize ysize) 3))
      (mulZ t (skip t xsize) ysize))

/-- The `bmpinfo` that `WriteBMP` fills in. -/
def bmpinfo (t : Target) (xsize ysize : Nat) : BITMAPINFOHEADER where
  biSize := toDWORD SIZEOF_BITMAPINFOHEADER
  biWidth := toDWORD xsize
  biHeight := toDWORD ysize
  biPlanes := 1
  biBitCount := 0x18
  biCompression := 0
  biSizeImage := toDWORD (mulZ t xsize ysize)
  biXPelsPerMeter := 100
  biYPelsPerMeter := 100
  biClrUsed := 0
  biClrImportant := 0

/-- The sixteen header `fwrite` calls of `WriteBMP`, in order: the bytes each one passes. -/
def headerWrites (t : Target) (xsize ysize : Nat) : List (List Byte) :=
  let h := bmpheader t xsize ysize
  let i := bmpinfo t xsize ysize
  [ leBytes 2 h.bfType,
    leBytes 4 h.bfSize,
    leBytes 2 h.bfReserved1,
    leBytes 2 h.bfReserved2,
    leBytes 4 h.bfOffBits,
    leBytes 4 i.biSize,
    leBytes 4 i.biWidth,
    leBytes 4 i.biHeight,
    leBytes 2 i.biPlanes,
    leBytes 2 i.biBitCount,
    leBytes 4 i.biCompression,
    leBytes 4 i.biSizeImage,
    leBytes 4 i.biXPelsPerMeter,
    leBytes 4 i.biYPelsPerMeter,
    leBytes 4 i.biClrUsed,
    leBytes 4 i.biClrImportant ]

/-- The 54 bytes of the sixteen header `fwrite` calls, in file order. They are written before
the copy loops run. -/
def headerBytes (t : Target) (xsize ysize : Nat) : List Byte :=
  (headerWrites t xsize ysize).flatten

/-- The size given to `data.resize`: `bmpheader.bfSize - bmpheader.bfOffBits` on `DWORD`. -/
def dataSize (t : Target) (xsize ysize : Nat) : Nat :=
  subDWORD (bmpheader t xsize ysize).bfSize (bmpheader t xsize ysize).bfOffBits

/-- Offset into `data` of the destination of one `memcpy`:
`((ysize - y - 1) * xsize + x) * 3 + (2 - c) + (ysize - y - 1) * skip`. -/
def dstIndex (t : Target) (xsize ysize y x c : Nat) : Nat :=
  mulZ t (addZ t (mulZ t (subZ t (subZ t ysize y) 1) xsize) x) 3 + (2 - c)
    + mulZ t (subZ t (subZ t ysize y) 1) (skip t xsize)

/-- Offset into `pixels` of the source of one `memcpy`: `(y * xsize + x) * 3 + c`. -/
def srcIndex (t : Target) (xsize y x c : Nat) : Nat :=
  mulZ t (addZ t (mulZ t y xsize) x) 3 + c

/-- One `memcpy(data.data() + dst, pixels->data() + src, sizeof(uint8_t))`. -/
def copyByte (pixels data : List Byte) (dst src : Nat) : Option (List Byte) :=
  match pixels[src]? with
  | none => none
  | some b => if dst < data.length then some (data.set dst b) else none

/-- The loop `for (int c = 2; c >= 0; c--)`. -/
def loopC (t : Target) (pixels : List Byte) (xsize ysize y x : Nat) (data : List Byte) :
    Option (List Byte) :=
  [2, 1, 0].foldlM
    (fun d c => copyByte pixels d (dstIndex t xsize ysize y x c) (srcIndex t xsize y x c)) data

/-- The loop `for (int x = 0; x < (int)xsize; x++)`. -/
def loopX (t : Target) (pixels : List Byte) (xsize ysize y : Nat) (data : List Byte) :
    Option (List Byte) :=
  (List.range (toInt xsize).toNat).foldlM (fun d x => loopC t pixels xsize ysize y x d) data

/-- The loop `for (int y = 0; y < (int)ysize; y++)`. -/
def loopY (t : Target) (pixels : List Byte) (xsize ysize : Nat) (data : List Byte) :
    Option (List Byte) :=
  (List.range (toInt ysize).toNat).foldlM (fun d y => loopX t pixels xsize ysize y d) data

/-- The vector `data` when it is written out: `resize` to `dataSize`, `assign` zeros,
then the copy loops. -/
def pixelData (t : Target) (pixels : List Byte) (xsize ysize : Nat) : Option (List Byte) :=
  loopY t pixels xsize ysize (List.replicate (dataSize t xsize ysize) 0)

/-- All `fwrite` calls of `WriteBMP` in order, each with the bytes it passes: the sixteen
header fields, then `fwrite(data.data(), data.size(), 1, fp)`. -/
def fwriteCalls (t : Target) (pixels : List Byte) (xsize ysize : Nat) :
    Option (List (List Byte)) :=
  (pixelData t pixels xsize ysize).map (fun data => headerWrites t xsize ysize ++ [data])

/-- The output file as the answers it gives to `WriteBMP`: whether `fopen` succeeds, for
the `i`-th `fwrite` call either `none` (the call is complete) or `some n` (a short write:
only the first `n` bytes it passes reach the file), and whether `fclose` returns 0. -/
structure Sink where
  fopenOk : Bool
  shortWrite : Nat → Option Nat
  fcloseOk : Bool

/-- The bytes of the `i`-th `fwrite` call that reach the file. -/
def Sink.fwrite (s : Sink) (i : Nat) (w : List Byte) : List Byte :=
  match s.shortWrite i with
  | none => w
  | some n => w.take n

/-- The value the `i`-th `fwrite(ptr, size, 1, fp)` call returns: the number of complete
items written, 1 or 0. -/
def Sink.fwriteResult (s : Sink) (i : Nat) (w : List Byte) : Nat :=
  if (s.fwrite i w).length = w.length then 1 else 0

/-- The file contents after the given `fwrite` calls, numbered from `i`. -/
def Sink.contents (s : Sink) : Nat → List (List Byte) → List Byte
  | _, [] => []
  | i, w :: ws => s.fwrite i w ++ s.contents (i + 1) ws

/-- The values the given `fwrite` calls, numbered from `i`, return. -/
def Sink.results (s : Sink) : Nat → List (List Byte) → List Nat
  | _, [] => []
  | i, w :: ws => s.fwriteResult i w :: s.results (i + 1) ws

/-- A file that opens, takes every write whole and closes. -/
def Sink.faithful : Sink where
  fopenOk := true
  shortWrite := fun _ => none
  fcloseOk := true

/-- The function `WriteBMP`: the returned `bool` and the contents of the file. `fopen` failing returns
`false`; the values the `fwrite` calls return are discarded by the code; `fclose` failing
returns `false`; otherwise `true`. -/
def WriteBMP (t : Target) (s : Sink) (pixels : List Byte) (xsize ysize : Nat) :
    Option (Bool × List Byte) :=
  if s.fopenOk = false then
    some (false, [])
  else
    match fwriteCalls t pixels xsize ysize with
    | none => none
    | some calls =>
      let file := s.contents 0 calls
      if s.fcloseOk = false then some (false, file) else some (true, file)

/-! ## DecodeJpegXlOneShot

The codec (the `jxl` library, with the compressed input it was given) is outside the
repository. It enters the embedding as the sequence of answers it gives: for every call of
`JxlDecoderProcessInput` the status returned, with the results of the queries the loop makes
while it handles that status. -/

/-- Modelled from the spec: one round of the codec's event protocol (section 4.1), named by
the `JxlDecoderStatus` that `JxlDecoderProcessInput` returns (`jxl/decode.h` is not part of
the repository), with the answers of the codec to the queries made in that round.
* `JXL_DEC_BASIC_INFO getOk xsize ysize threads`: whether `JxlDecoderGetBasicInfo` succeeds,
  `info.xsize`, `info.ysize`, and the value of `JxlResizableParallelRunnerSuggestThreads`.
* `JXL_DEC_NEED_IMAGE_OUT_BUFFER sizeOk buffer_size setOk`: whether
  `JxlDecoderImageOutBufferSize` succeeds, the size it reports, and whether
  `JxlDecoderSetImageOutBuffer` succeeds.
* `JXL_DEC_COLOR_ENCODING sizeOk icc_size getOk profile`: whether
  `JxlDecoderGetICCProfileSize` succeeds, the size it reports, whether
  `JxlDecoderGetColorAsICCProfile` succeeds, and the bytes it stores.
* `other code`: any status the loop has no branch for. -/
inductive Event where
  | JXL_DEC_SUCCESS
  | JXL_DEC_ERROR
  | JXL_DEC_NEED_MORE_INPUT
  | JXL_DEC_BASIC_INFO (getOk : Bool) (xsize ysize : Nat) (threads : Nat)
  | JXL_DEC_NEED_IMAGE_OUT_BUFFER (sizeOk : Bool) (buffer_size : Nat) (setOk : Bool)
  | JXL_DEC_COLOR_ENCODING (sizeOk : Bool) (icc_size : Nat) (getOk : Bool)
      (profile : List Byte)
  | JXL_DEC_FULL_IMAGE
  | other (code : Nat)
  deriving DecidableEq, Repr

/-- The call `v.resize(n)` on a `std::vector<uint8_t>`: the first `n` elements are kept and new
elements are 0. -/
def resize (v : List Byte) (n : Nat) : List Byte :=
  v.take n ++ List.replicate (n - v.length) 0

/-- The codec storing bytes into a buffer it was given: it writes inside the buffer only. -/
def storeInto (buf bytes : List Byte) : List Byte :=
  bytes.take buf.length ++ buf.drop bytes.length

/-- What `DecodeJpegXlOneShot` holds between two rounds of its loop: `*xsize`, `*ysize`,
`*pixels`, the local `icc_profile`, the thread count last given to the runner (if any), and
the size of the buffer last registered with `JxlDecoderSetImageOutBuffer` (if any). -/
structure DecodeState where
  xsize : Nat
  ysize : Nat
  pixels : List Byte
  icc_profile : List Byte
  threads : Option Nat
  outBuffer : Option Nat
  deriving DecidableEq, Repr

/-- The result of one round of the loop: go on with a new state, or `return` a `bool`. -/
inductive Outcome where
  | running (st : DecodeState)
  | returned (ok : Bool) (st : DecodeState)
  deriving DecidableEq, Repr

/-- The body of the `for (;;)` loop of `DecodeJpegXlOneShot`, after `JxlDecoderProcessInput`
has returned the status of `ev`. -/
def handle (t : Target) (st : DecodeState) (ev : Event) : Outcome :=
  match ev with
  | .JXL_DEC_ERROR => .returned false st
  | .JXL_DEC_NEED_MORE_INPUT => .returned false st
  | .JXL_DEC_BASIC_INFO getOk xsize ysize threads =>
    if getOk = false then
      .returned false st
    else
      .running { st with xsize := xsize, ysize := ysize, threads := some threads }
  | .JXL_DEC_NEED_IMAGE_OUT_BUFFER sizeOk buffer_size setOk =>
    if sizeOk = false then
      .returned false st
    else if buffer_size ≠ mulZ t (mulZ t st.xsize st.ysize) 3 then
      .returned false st
    else
      let pixels := resize st.pixels (mulZ t (mulZ t st.xsize st.ysize) 3)
      if setOk = false then
        .returned false { st with pixels := pixels }
      else
        .running { st with pixels := pixels, outBuffer := some pixels.length }
  | .JXL_DEC_COLOR_ENCODING sizeOk icc_size getOk profile =>
    if sizeOk = false then
      .returned false st
    else
      let icc_profile := resize st.icc_profile icc_size
      if getOk = false then
        .returned false { st with icc_profile := icc_profile }
      else
        .running { st with icc_profile := storeInto icc_profile profile }
  | .JXL_DEC_FULL_IMAGE => .running st
  | .JXL_DEC_SUCCESS => .returned true st
  | .other _ => .returned false st

/-- The `for (;;)` loop over the rounds the codec answers: the returned `bool`, the state at
the `return`, and the rounds not consumed. `none` when the rounds run out with the loop
still polling. The samples the codec stores into the registered buffer during
`JxlDecoderProcessInput` are not part of the embedding: `pixels` is the vector as the code
of the function leaves it, so what is proved of it past a sink request is its length, which
the codec cannot change, not its contents. -/
def decodeLoop (t : Target) : DecodeState → List Event → Option (Bool × DecodeState × List Event)
  | _, [] => none
  | st, ev :: rest =>
    match handle t st ev with
    | .running st1 => decodeLoop t st1 rest
    | .returned ok st1 => some (ok, st1, rest)

/-- The codec as `DecodeJpegXlOneShot` meets it: whether `JxlDecoderSubscribeEvents` and
`JxlDecoderSetParallelRunner` succeed, and the rounds of `JxlDecoderProcessInput`. -/
structure Codec where
  subscribeOk : Bool
  setRunnerOk : Bool
  events : List Event
  deriving DecidableEq, Repr

/-- The state in which the loop of `DecodeJpegXlOneShot` starts, from the values the caller
has in `*pixels`, `*xsize` and `*ysize`. -/
def initialState (pixels : List Byte) (xsize ysize : Nat) : DecodeState where
  xsize := xsize
  ysize := ysize
  pixels := pixels
  icc_profile := []
  threads := none
  outBuffer := none

/-- The function `DecodeJpegXlOneShot`: the returned `bool`, the state at the `return` (with `*pixels`,
`*xsize`, `*ysize`), and the rounds of the codec not consumed. -/
def DecodeJpegXlOneShot (t : Target) (codec : Codec) (pixels : List Byte) (xsize ysize : Nat) :
    Option (Bool × DecodeState × List Event) :=
  if codec.subscribeOk = false then
    some (false, initialState pixels xsize ysize, codec.events)
  else if codec.setRunnerOk = false then
    some (false, initialState pixels xsize ysize, codec.events)
  else
    decodeLoop t (initialState pixels xsize ysize) codec.events

/-! ## Auxiliary definitions for the statements -/

/-- The `memcpy` calls of the copy loops in execution order, each as its destination offset
in `data` and its source offset in `pixels`. -/
def copies (t : Target) (xsize ysize : Nat) : List (Nat × Nat) :=
  (List.range (toInt ysize).toNat).flatMap fun y =>
    (List.range (toInt xsize).toNat).flatMap fun x =>
      [2, 1, 0].map fun c => (dstIndex t xsize ysize y x c, srcIndex t xsize y x c)

/-- The hypothesis under which no computation of `WriteBMP` wraps: positive dimensions and
a file size that fits the 32-bit size field. -/
structure Fits (t : Target) (xsize ysize : Nat) : Prop where
  xpos : 0 < xsize
  ypos : 0 < ysize
  small : 54 + (xsize * 3 + skip t xsize) * ysize < 2 ^ 32

/-! ## Reading a written file back -/

/-- Row `r` of the pixel region of a file, read at stride `xsize * 3 + skip` from offset 54,
with the padding dropped. -/
def parseRow (t : Target) (file : List Byte) (xsize r : Nat) : List Byte :=
  (file.drop (54 + r * (xsize * 3 + skip t xsize))).take (xsize * 3)

/-- A row with the channel order of every pixel reversed. -/
def reverseChannels : List Byte → List Byte
  | a :: b :: c :: rest => c :: b :: a :: reverseChannels rest
  | rest => rest

/-- The parser of the round-trip law, following the words of the specification: read the
rows of the pixel region, reverse the row order, reverse the channel order of every pixel. -/
def parseBMP (t : Target) (file : List Byte) (xsize ysize : Nat) : List Byte :=
  (((List.range ysize).map (parseRow t file xsize)).reverse.map reverseChannels).flatten

/-! ## Vocabulary of the statements about the decode loop -/

/-- The status of the round is one the loop goes on after: `BASIC_INFO`,
`NEED_IMAGE_OUT_BUFFER`, `COLOR_ENCODING` or `FULL_IMAGE`. -/
def Event.continues : Event → Bool
  | .JXL_DEC_BASIC_INFO _ _ _ _ => true
  | .JXL_DEC_NEED_IMAGE_OUT_BUFFER _ _ _ => true
  | .JXL_DEC_COLOR_ENCODING _ _ _ _ => true
  | .JXL_DEC_FULL_IMAGE => true
  | _ => false

/-- Every query the loop makes in the round succeeds. -/
def Event.queriesOk : Event → Bool
  | .JXL_DEC_BASIC_INFO getOk _ _ _ => getOk
  | .JXL_DEC_NEED_IMAGE_OUT_BUFFER sizeOk _ setOk => sizeOk && setOk
  | .JXL_DEC_COLOR_ENCODING sizeOk _ getOk _ => sizeOk && getOk
  | _ => true

/-- Every sink request among the rounds reports the size `xsize * ysize * 3` (on `size_t`)
of the dimensions recorded when it is made, starting from dimensions `xsize`, `ysize`. -/
def sizesMatch (t : Target) : Nat → Nat → List Event → Bool
  | _, _, [] => true
  | _, _, .JXL_DEC_BASIC_INFO true x y _ :: rest => sizesMatch t x y rest
  | xsize, ysize, .JXL_DEC_NEED_IMAGE_OUT_BUFFER _ buffer_size _ :: rest =>
    decide (buffer_size = mulZ t (mulZ t xsize ysize) 3) && sizesMatch t xsize ysize rest
  | xsize, ysize, _ :: rest => sizesMatch t xsize ysize rest

/-- The state of the loop after the given rounds, when it is still running after each. -/
def advance (t : Target) : DecodeState → List Event → Option DecodeState
  | st, [] => some st
  | st, ev :: rest =>
    match handle t st ev with
    | .running st1 => advance t st1 rest
    | .returned _ _ => none

/-- The state an outcome carries: the one the loop goes on with, or the one at the
`return`. -/
def Outcome.state : Outcome → DecodeState
  | .running st => st
  | .returned _ st => st

/-- The round is a basic-info event. -/
def Event.isBasicInfo : Event → Bool
  | .JXL_DEC_BASIC_INFO _ _ _ _ => true
  | _ => false

/-- The round is a sink request (`JXL_DEC_NEED_IMAGE_OUT_BUFFER`). -/
def Event.isSinkRequest : Event → Bool
  | .JXL_DEC_NEED_IMAGE_OUT_BUFFER _ _ _ => true
  | _ => false

/-- The pixel buffer of the state has the length `xsize * ysize * 3`, computed on `size_t`,
of the dimensions the state records. -/
def Sized (t : Target) (st : DecodeState) : Prop :=
  st.pixels.length = mulZ t (mulZ t st.xsize st.ysize) 3

/-! ## Word arithmetic without wrap-around -/

theorem size_ge (t : Target) : 2 ^ 32 ≤ t.size := by
  cases t <;> simp [Target.size, Target.bits]

theorem mod_size_of_lt {t : Target} {a : Nat} (h : a < 2 ^ 32) : a % t.size = a :=
  Nat.mod_eq_of_lt (Nat.lt_of_lt_of_le h (size_ge t))

theorem mulZ_of_lt {t : Target} {a b : Nat} (h : a * b < 2 ^ 32) : mulZ t a b = a * b :=
  mod_size_of_lt h

theorem addZ_of_lt {t : Target} {a b : Nat} (h : a + b < 2 ^ 32) : addZ t a b = a + b :=
  mod_size_of_lt h

theorem subZ_of_le {t : Target} {a b : Nat} (hb : b ≤ a) (ha : a < 2 ^ 32) :
    subZ t a b = a - b := by
  have hs := size_ge t
  have h1 : a % t.size = a := mod_size_of_lt ha
  have h2 : b % t.size = b := mod_size_of_lt (Nat.lt_of_le_of_lt hb ha)
  unfold subZ
  rw [h1, h2]
  have h3 : a + t.size - b = (a - b) + t.size := by omega
  rw [h3, Nat.add_mod_right]
  exact Nat.mod_eq_of_lt (by omega)

theorem toInt_of_lt {a : Nat} (h : a < 2 ^ 31) : toInt a = (a : Int) := by
  have h1 : a % DWORD_SIZE = a := Nat.mod_eq_of_lt (by unfold DWORD_SIZE; omega)
  unfold toInt
  rw [h1, if_pos h]

/-- Closed form of `skip`, for every value of `xsize`. -/
theorem skip_eq (t : Target) (xsize : Nat) : skip t xsize = (4 - (xsize * 3) % 4) % 4 := by
  have hand : ∀ x : Nat, x &&& 3 = x % 4 := fun x => by
    simpa using Nat.and_pow_two_sub_one_eq_mod x 2
  have hshift : ∀ x : Nat, x >>> 3 = x / 8 := fun x => by
    simp [Nat.shiftRight_eq_div_pow]
  unfold skip padding subZ mulZ
  rw [hand, hshift]
  cases t <;> simp only [Target.size, Target.bits, beq_eq_false_iff_ne, ne_eq] <;>
    split <;> omega

/-! ## The copy loops as one sequence of byte copies -/

theorem foldlM_flatMap {α β γ : Type} (f : α → List β) (g : γ → β → Option γ) (l : List α)
    (init : γ) :
    (l.flatMap f).foldlM g init = l.foldlM (fun acc a => (f a).foldlM g acc) init := by
  induction l generalizing init with
  | nil => rfl
  | cons a l ih =>
    rw [List.flatMap_cons, List.foldlM_append, List.foldlM_cons]
    congr 1
    funext acc
    exact ih acc

theorem loopY_eq_copies (t : Target) (pixels : List Byte) (xsize ysize : Nat)
    (data : List Byte) :
    loopY t pixels xsize ysize data
      = (copies t xsize ysize).foldlM (fun d w => copyByte pixels d w.1 w.2) data := by
  unfold loopY loopX loopC copies
  rw [foldlM_flatMap]
  congr 1
  funext d y
  rw [foldlM_flatMap]
  congr 1

/-- Running a sequence of in-bounds byte copies succeeds, keeps the length, leaves every
offset no copy targets as it was, and puts at every targeted offset the source byte of one
of the copies that target it. -/
theorem foldlM_copyByte (pixels : List Byte) (ws : List (Nat × Nat)) (d : List Byte)
    (hb : ∀ w ∈ ws, w.1 < d.length ∧ w.2 < pixels.length) :
    ∃ e, ws.foldlM (fun d w => copyByte pixels d w.1 w.2) d = some e ∧ e.length = d.length ∧
      ∀ i, ((∀ w ∈ ws, w.1 ≠ i) ∧ e[i]? = d[i]?) ∨
        (∃ w ∈ ws, w.1 = i ∧ e[i]? = pixels[w.2]?) := by
  induction ws generalizing d with
  | nil =>
    exact ⟨d, rfl, rfl, fun i => Or.inl ⟨fun w hw => by simp at hw, rfl⟩⟩
  | cons w ws ih =>
    obtain ⟨hw1, hw2⟩ := hb w (List.mem_cons_self _ _)
    obtain ⟨b, hbv⟩ : ∃ b, pixels[w.2]? = some b := ⟨pixels[w.2], List.getElem?_eq_getElem hw2⟩
    have hstep : copyByte pixels d w.1 w.2 = some (d.set w.1 b) := by
      simp [copyByte, hbv, hw1]
    have hb2 : ∀ v ∈ ws, v.1 < (d.set w.1 b).length ∧ v.2 < pixels.length := by
      intro v hv
      simpa using hb v (List.mem_cons_of_mem _ hv)
    obtain ⟨e, he, hlen, hpt⟩ := ih (d.set w.1 b) hb2
    refine ⟨e, ?_, by simpa using hlen, ?_⟩
    · rw [List.foldlM_cons, hstep]
      exact he
    · intro i
      rcases hpt i with ⟨hno, hv⟩ | ⟨v, hv, hvi, hval⟩
      · by_cases hwi : w.1 = i
        · right
          refine ⟨w, List.mem_cons_self _ _, hwi, ?_⟩
          rw [hv, List.getElem?_set, if_pos hwi, if_pos hw1, hbv]
        · left
          refine ⟨?_, ?_⟩
          · intro v hv2
            rcases List.mem_cons.mp hv2 with rfl | hv3
            · exact hwi
            · exact hno v hv3
          · rw [hv, List.getElem?_set, if_neg hwi]
      · right
        exact ⟨v, List.mem_cons_of_mem _ hv, hvi, hval⟩

/-! ## The offsets when nothing wraps -/

theorem Fits.xsize_lt {t : Target} {xsize ysize : Nat} (h : Fits t xsize ysize) :
    xsize < 2 ^ 31 := by
  have h1 : (xsize * 3 + skip t xsize) * 1 ≤ (xsize * 3 + skip t xsize) * ysize :=
    Nat.mul_le_mul_left _ h.ypos
  have := h.small
  omega

theorem Fits.ysize_lt {t : Target} {xsize ysize : Nat} (h : Fits t xsize ysize) :
    ysize < 2 ^ 31 := by
  have h1 : 3 * ysize ≤ (xsize * 3 + skip t xsize) * ysize :=
    Nat.mul_le_mul_right _ (by have := h.xpos; omega)
  have := h.small
  omega

theorem Fits.area {t : Target} {xsize ysize : Nat} (_h : Fits t xsize ysize) :
    (xsize * 3 + skip t xsize) * ysize = xsize * ysize * 3 + skip t xsize * ysize := by
  ring

theorem dstIndex_eq {t : Target} {xsize ysize y x c : Nat} (h : Fits t xsize ysize)
    (hy : y < ysize) (hx : x < xsize) :
    dstIndex t xsize ysize y x c
      = (ysize - 1 - y) * (xsize * 3 + skip t xsize) + x * 3 + (2 - c) := by
  have hys := h.ysize_lt
  have hsm := h.small
  have hle : (ysize - 1 - y + 1) * (xsize * 3 + skip t xsize)
      ≤ ysize * (xsize * 3 + skip t xsize) := Nat.mul_le_mul_right _ (by omega)
  have hexp : (ysize - 1 - y + 1) * (xsize * 3 + skip t xsize)
      = (ysize - 1 - y) * xsize * 3 + (ysize - 1 - y) * skip t xsize
        + (xsize * 3 + skip t xsize) := by ring
  have hcomm : ysize * (xsize * 3 + skip t xsize) = (xsize * 3 + skip t xsize) * ysize :=
    Nat.mul_comm _ _
  have hexp2 : (ysize - 1 - y) * (xsize * 3 + skip t xsize)
      = (ysize - 1 - y) * xsize * 3 + (ysize - 1 - y) * skip t xsize := by ring
  have e1 : subZ t ysize y = ysize - y := subZ_of_le (Nat.le_of_lt hy) (by omega)
  have e2 : subZ t (ysize - y) 1 = ysize - 1 - y := by
    rw [subZ_of_le (by omega) (by omega)]; omega
  have e3 : mulZ t (ysize - 1 - y) xsize = (ysize - 1 - y) * xsize := mulZ_of_lt (by omega)
  have e4 : addZ t ((ysize - 1 - y) * xsize) x = (ysize - 1 - y) * xsize + x :=
    addZ_of_lt (by omega)
  have e5 : mulZ t ((ysize - 1 - y) * xsize + x) 3 = ((ysize - 1 - y) * xsize + x) * 3 :=
    mulZ_of_lt (by omega)
  have e6 : mulZ t (ysize - 1 - y) (skip t xsize) = (ysize - 1 - y) * skip t xsize :=
    mulZ_of_lt (by omega)
  unfold dstIndex
  rw [e1, e2, e3, e4, e5, e6, hexp2]
  omega

theorem srcIndex_eq {t : Target} {xsize ysize y x c : Nat} (h : Fits t xsize ysize)
    (hy : y < ysize) (hx : x < xsize) :
    srcIndex t xsize y x c = (y * xsize + x) * 3 + c := by
  have hsm := h.small
  have harea := h.area
  have hle : (y + 1) * xsize ≤ ysize * xsize := Nat.mul_le_mul_right _ (by omega)
  have hexp : (y + 1) * xsize = y * xsize + xsize := by ring
  have hcomm : ysize * xsize = xsize * ysize := Nat.mul_comm _ _
  have e1 : mulZ t y xsize = y * xsize := mulZ_of_lt (by omega)
  have e2 : addZ t (y * xsize) x = y * xsize + x := addZ_of_lt (by omega)
  have e3 : mulZ t (y * xsize + x) 3 = (y * xsize + x) * 3 := mulZ_of_lt (by omega)
  unfold srcIndex
  rw [e1, e2, e3]

theorem bfSize_eq {t : Target} {xsize ysize : Nat} (h : Fits t xsize ysize) :
    (bmpheader t xsize ysize).bfSize = 54 + (xsize * 3 + skip t xsize) * ysize := by
  have hsm := h.small
  have harea := h.area
  have hoff : bfOffBits = 54 := by decide
  have e1 : mulZ t xsize ysize = xsize * ysize := mulZ_of_lt (by omega)
  have e2 : mulZ t (xsize * ysize) 3 = xsize * ysize * 3 := mulZ_of_lt (by omega)
  have e3 : addZ t 54 (xsize * ysize * 3) = 54 + xsize * ysize * 3 := addZ_of_lt (by omega)
  have e4 : mulZ t (skip t xsize) ysize = skip t xsize * ysize := mulZ_of_lt (by omega)
  have e5 : addZ t (54 + xsize * ysize * 3) (skip t xsize * ysize)
      = 54 + xsize * ysize * 3 + skip t xsize * ysize := addZ_of_lt (by omega)
  show toDWORD (addZ t (addZ t bfOffBits (mulZ t (mulZ t xsize ysize) 3))
      (mulZ t (skip t xsize) ysize)) = _
  rw [hoff, e1, e2, e3, e4, e5]
  unfold toDWORD DWORD_SIZE
  rw [Nat.mod_eq_of_lt (by omega)]
  omega

theorem dataSize_eq {t : Target} {xsize ysize : Nat} (h : Fits t xsize ysize) :
    dataSize t xsize ysize = (xsize * 3 + skip t xsize) * ysize := by
  have hsm := h.small
  have hoff : (bmpheader t xsize ysize).bfOffBits = 54 := rfl
  unfold dataSize subDWORD DWORD_SIZE
  rw [bfSize_eq h, hoff]
  omega

/-! ## What the copy loops leave in `data` -/

theorem row_split_unique {S a b a' b' : Nat} (hb : b < S) (hb' : b' < S)
    (h : a * S + b = a' * S + b') : a = a' ∧ b = b' := by
  rcases Nat.lt_trichotomy a a' with hlt | heq | hgt
  · have h1 : (a + 1) * S ≤ a' * S := Nat.mul_le_mul_right _ hlt
    have h2 : (a + 1) * S = a * S + S := by ring
    omega
  · subst heq
    exact ⟨rfl, by omega⟩
  · have h1 : (a' + 1) * S ≤ a * S := Nat.mul_le_mul_right _ hgt
    have h2 : (a' + 1) * S = a' * S + S := by ring
    omega

theorem mem_copies {t : Target} {xsize ysize : Nat} (h : Fits t xsize ysize) (w : Nat × Nat) :
    w ∈ copies t xsize ysize ↔ ∃ y, y < ysize ∧ ∃ x, x < xsize ∧ ∃ k, k < 3 ∧
      w = ((ysize - 1 - y) * (xsize * 3 + skip t xsize) + x * 3 + k,
           (y * xsize + x) * 3 + (2 - k)) := by
  unfold copies
  rw [toInt_of_lt h.xsize_lt, toInt_of_lt h.ysize_lt, Int.toNat_ofNat, Int.toNat_ofNat]
  simp only [List.mem_flatMap, List.mem_range, List.mem_map]
  constructor
  · rintro ⟨y, hy, x, hx, c, hc, rfl⟩
    rw [dstIndex_eq h hy hx, srcIndex_eq h hy hx]
    refine ⟨y, hy, x, hx, 2 - c, ?_, ?_⟩
    · omega
    · have hc2 : c ≤ 2 := by
        simp only [List.mem_cons, List.mem_singleton, List.not_mem_nil, or_false] at hc
        omega
      have : 2 - (2 - c) = c := by omega
      rw [this]
  · rintro ⟨y, hy, x, hx, k, hk, rfl⟩
    refine ⟨y, hy, x, hx, 2 - k, ?_, ?_⟩
    · have : k = 0 ∨ k = 1 ∨ k = 2 := by omega
      rcases this with rfl | rfl | rfl <;> simp
    · rw [dstIndex_eq h hy hx, srcIndex_eq h hy hx]
      have : 2 - (2 - k) = k := by omega
      rw [this]

/-- The contents of `data` after the copy loops, for dimensions that fit: the loops
succeed, `data` has one stride per row, row `r` holds source row `ysize - 1 - r` with the
channels of every pixel reversed, and the `skip` bytes ending every row are 0. -/
theorem pixelData_spec {t : Target} {pixels : List Byte} {xsize ysize : Nat}
    (h : Fits t xsize ysize) (hp : pixels.length = xsize * ysize * 3) :
    ∃ data, pixelData t pixels xsize ysize = some data ∧
      data.length = (xsize * 3 + skip t xsize) * ysize ∧
      (∀ r x k, r < ysize → x < xsize → k < 3 →
        data[r * (xsize * 3 + skip t xsize) + x * 3 + k]?
          = pixels[((ysize - 1 - r) * xsize + x) * 3 + (2 - k)]?) ∧
      (∀ r j, r < ysize → j < skip t xsize →
        data[r * (xsize * 3 + skip t xsize) + xsize * 3 + j]? = some 0) := by
  have hbound : ∀ w ∈ copies t xsize ysize,
      w.1 < (List.replicate (dataSize t xsize ysize) (0 : Byte)).length
        ∧ w.2 < pixels.length := by
    intro w hw
    obtain ⟨y, hy, x, hx, k, hk, rfl⟩ := (mem_copies h w).mp hw
    rw [List.length_replicate, dataSize_eq h, hp]
    have h1 : (ysize - 1 - y + 1) * (xsize * 3 + skip t xsize)
        ≤ ysize * (xsize * 3 + skip t xsize) := Nat.mul_le_mul_right _ (by omega)
    have h2 : (ysize - 1 - y + 1) * (xsize * 3 + skip t xsize)
        = (ysize - 1 - y) * (xsize * 3 + skip t xsize) + (xsize * 3 + skip t xsize) := by ring
    have h3 : ysize * (xsize * 3 + skip t xsize) = (xsize * 3 + skip t xsize) * ysize :=
      Nat.mul_comm _ _
    have h4 : (y + 1) * xsize ≤ ysize * xsize := Nat.mul_le_mul_right _ (by omega)
    have h5 : (y + 1) * xsize = y * xsize + xsize := by ring
    have h6 : ysize * xsize = xsize * ysize := Nat.mul_comm _ _
    constructor
    · show (ysize - 1 - y) * (xsize * 3 + skip t xsize) + x * 3 + k < _
      omega
    · show (y * xsize + x) * 3 + (2 - k) < _
      omega
  obtain ⟨data, hdata, hlen, hpt⟩ := foldlM_copyByte pixels (copies t xsize ysize) _ hbound
  rw [List.length_replicate, dataSize_eq h] at hlen
  refine ⟨data, ?_, hlen, ?_, ?_⟩
  · unfold pixelData
    rw [loopY_eq_copies]
    exact hdata
  · intro r x k hr hx hk
    rcases hpt (r * (xsize * 3 + skip t xsize) + x * 3 + k) with ⟨hno, _⟩ | ⟨w, hw, hwi, hval⟩
    · exfalso
      have hmem : ((ysize - 1 - (ysize - 1 - r)) * (xsize * 3 + skip t xsize) + x * 3 + k,
          ((ysize - 1 - r) * xsize + x) * 3 + (2 - k)) ∈ copies t xsize ysize :=
        (mem_copies h _).mpr ⟨ysize - 1 - r, by omega, x, hx, k, hk, rfl⟩
      have hback : ysize - 1 - (ysize - 1 - r) = r := by omega
      rw [hback] at hmem
      exact hno _ hmem rfl
    · obtain ⟨y, hy, x', hx', k', hk', rfl⟩ := (mem_copies h w).mp hw
      have heq : (ysize - 1 - y) * (xsize * 3 + skip t xsize) + (x' * 3 + k')
          = r * (xsize * 3 + skip t xsize) + (x * 3 + k) := by
        have : (ysize - 1 - y) * (xsize * 3 + skip t xsize) + x' * 3 + k'
            = r * (xsize * 3 + skip t xsize) + x * 3 + k := hwi
        omega
      obtain ⟨h1, h2⟩ := row_split_unique (by omega) (by omega) heq
      have hx2 : x' = x := by omega
      have hk2 : k' = k := by omega
      have hy2 : y = ysize - 1 - r := by omega
      rw [hval]
      show pixels[(y * xsize + x') * 3 + (2 - k')]? = _
      rw [hx2, hk2, hy2]
  · intro r j hr hj
    rcases hpt (r * (xsize * 3 + skip t xsize) + xsize * 3 + j) with ⟨_, hv⟩ | ⟨w, hw, hwi, _⟩
    · rw [hv, List.getElem?_replicate, dataSize_eq h, if_pos]
      have h1 : (r + 1) * (xsize * 3 + skip t xsize)
          ≤ ysize * (xsize * 3 + skip t xsize) := Nat.mul_le_mul_right _ (by omega)
      have h2 : (r + 1) * (xsize * 3 + skip t xsize)
          = r * (xsize * 3 + skip t xsize) + (xsize * 3 + skip t xsize) := by ring
      have h3 : ysize * (xsize * 3 + skip t xsize) = (xsize * 3 + skip t xsize) * ysize :=
        Nat.mul_comm _ _
      omega
    · exfalso
      obtain ⟨y, hy, x', hx', k', hk', rfl⟩ := (mem_copies h w).mp hw
      have heq : (ysize - 1 - y) * (xsize * 3 + skip t xsize) + (x' * 3 + k')
          = r * (xsize * 3 + skip t xsize) + (xsize * 3 + j) := by
        have : (ysize - 1 - y) * (xsize * 3 + skip t xsize) + x' * 3 + k'
            = r * (xsize * 3 + skip t xsize) + xsize * 3 + j := hwi
        omega
      obtain ⟨_, h2⟩ := row_split_unique (by omega) (by omega) heq
      omega

theorem headerBytes_length (t : Target) (xsize ysize : Nat) :
    (headerBytes t xsize ysize).length = 54 := by
  simp [headerBytes, headerWrites, leBytes]

theorem getElem?_header_append (t : Target) (xsize ysize : Nat) (data : List Byte) (i : Nat) :
    (headerBytes t xsize ysize ++ data)[54 + i]? = data[i]? := by
  rw [List.getElem?_append_right (by rw [headerBytes_length]; omega), headerBytes_length]
  congr 1
  omega

theorem contents_of_no_short (s : Sink) (h : ∀ i, s.shortWrite i = none) (i : Nat)
    (calls : List (List Byte)) : s.contents i calls = calls.flatten := by
  induction calls generalizing i with
  | nil => rfl
  | cons w ws ih =>
    show s.fwrite i w ++ s.contents (i + 1) ws = _
    rw [ih]
    unfold Sink.fwrite
    rw [h i]
    rfl

theorem contents_faithful (i : Nat) (calls : List (List Byte)) :
    Sink.faithful.contents i calls = calls.flatten :=
  contents_of_no_short Sink.faithful (fun _ => rfl) i calls

theorem WriteBMP_faithful {t : Target} {pixels : List Byte} {xsize ysize : Nat}
    {data : List Byte} (h : pixelData t pixels xsize ysize = some data) :
    WriteBMP t Sink.faithful pixels xsize ysize
      = some (true, headerBytes t xsize ysize ++ data) := by
  have hc : Sink.faithful.contents 0 (headerWrites t xsize ysize ++ [data])
      = headerBytes t xsize ysize ++ data := by
    rw [contents_faithful]
    simp [headerBytes]
  have hopen : Sink.faithful.fopenOk = true := rfl
  have hclose : Sink.faithful.fcloseOk = true := rfl
  simp [WriteBMP, fwriteCalls, h, hc, hopen, hclose]

/-- With the file taking every write whole, `WriteBMP` succeeds for dimensions that fit,
and the file is the 54 header bytes followed by `data` as `pixelData_spec` describes it. -/
theorem WriteBMP_file {t : Target} {pixels : List Byte} {xsize ysize : Nat}
    (h : Fits t xsize ysize) (hp : pixels.length = xsize * ysize * 3) :
    ∃ data, WriteBMP t Sink.faithful pixels xsize ysize
        = some (true, headerBytes t xsize ysize ++ data) ∧
      data.length = (xsize * 3 + skip t xsize) * ysize ∧
      (∀ r x k, r < ysize → x < xsize → k < 3 →
        data[r * (xsize * 3 + skip t xsize) + x * 3 + k]?
          = pixels[((ysize - 1 - r) * xsize + x) * 3 + (2 - k)]?) ∧
      (∀ r j, r < ysize → j < skip t xsize →
        data[r * (xsize * 3 + skip t xsize) + xsize * 3 + j]? = some 0) := by
  obtain ⟨data, hd, hlen, h1, h2⟩ := pixelData_spec h hp
  exact ⟨data, WriteBMP_faithful hd, hlen, h1, h2⟩

theorem fits_of_lt {t : Target} {xsize ysize : Nat} (hx : 0 < xsize) (hy : 0 < ysize)
    (hfit : 54 + (xsize * 3 + skip t xsize) * ysize < 2 ^ 31) : Fits t xsize ysize :=
  ⟨hx, hy, Nat.lt_trans hfit (by decide)⟩

theorem src_lt (xsize : Nat) {ysize r x k : Nat} (hr : r < ysize) (hx : x < xsize) (hk : k < 3) :
    ((ysize - 1 - r) * xsize + x) * 3 + (2 - k) < xsize * ysize * 3 := by
  have h1 : (ysize - 1 - r + 1) * xsize ≤ ysize * xsize := Nat.mul_le_mul_right _ (by omega)
  have h2 : (ysize - 1 - r + 1) * xsize = (ysize - 1 - r) * xsize + xsize := by ring
  have h3 : ysize * xsize = xsize * ysize := Nat.mul_comm _ _
  omega

/-! ## Reading the header fields back -/

theorem length_leBytes (n v : Nat) : (leBytes n v).length = n := by
  induction n generalizing v with
  | zero => rfl
  | succ n ih => simp [leBytes, ih]

theorem readLE_leBytes (pre post : List Byte) (n v : Nat) :
    readLE (pre ++ leBytes n v ++ post) pre.length n = v % 256 ^ n := by
  induction n generalizing pre v with
  | zero => simp [readLE, Nat.mod_one]
  | succ n ih =>
    have h1 : (pre ++ leBytes (n + 1) v ++ post)
        = (pre ++ [⟨v % 256, Nat.mod_lt v (by decide)⟩]) ++ leBytes n (v / 256) ++ post := by
      simp [leBytes]
    have h2 := ih (pre ++ [⟨v % 256, Nat.mod_lt v (by decide)⟩]) (v / 256)
    rw [List.length_append, List.length_singleton] at h2
    show ((pre ++ leBytes (n + 1) v ++ post)[pre.length]?.map Fin.val).getD 0
      + 256 * readLE (pre ++ leBytes (n + 1) v ++ post) (pre.length + 1) n = _
    rw [h1, h2]
    have h3 : (pre ++ [(⟨v % 256, Nat.mod_lt v (by decide)⟩ : Byte)]
        ++ leBytes n (v / 256) ++ post)[pre.length]?
        = some ⟨v % 256, Nat.mod_lt v (by decide)⟩ := by
      rw [List.append_assoc, List.append_assoc,
        List.getElem?_append_right (Nat.le_refl _), Nat.sub_self]
      simp
    rw [h3]
    simp only [Option.map_some', Option.getD_some]
    rw [pow_succ', Nat.mod_mul]

/-- Reading back the field written by one of the header `fwrite` calls gives the value
the call was passed, reduced to the width of the field. -/
theorem readLE_header_field (t : Target) (xsize ysize : Nat) (cs1 cs2 : List (List Byte))
    (n v off : Nat) (hsplit : headerWrites t xsize ysize = cs1 ++ leBytes n v :: cs2)
    (hoff : cs1.flatten.length = off) :
    readLE (headerBytes t xsize ysize) off n = v % 256 ^ n := by
  unfold headerBytes
  rw [hsplit, ← hoff]
  have : (cs1 ++ leBytes n v :: cs2).flatten = cs1.flatten ++ leBytes n v ++ cs2.flatten := by
    simp
  rw [this]
  exact readLE_leBytes _ _ _ _

theorem toDWORD_lt (a : Nat) : toDWORD a < 2 ^ 32 :=
  Nat.mod_lt _ (by decide)

theorem toDWORD_of_lt {a : Nat} (h : a < 2 ^ 32) : toDWORD a = a :=
  Nat.mod_eq_of_lt h

theorem modEq_mod_size (t : Target) (a : Nat) : Nat.ModEq (2 ^ 32) (a % t.size) a := by
  have hd : 2 ^ 32 ∣ t.size := by
    cases t
    · exact Nat.dvd_refl _
    · exact ⟨2 ^ 32, by norm_num [Target.size, Target.bits]⟩
  exact (Nat.mod_modEq a t.size).of_dvd hd

/-- The size field for every pair of dimensions: the file size modulo `2 ^ 32`. -/
theorem bfSize_mod (t : Target) (xsize ysize : Nat) :
    (bmpheader t xsize ysize).bfSize = (54 + (xsize * 3 + skip t xsize) * ysize) % 2 ^ 32 := by
  have hoff : bfOffBits = 54 := by decide
  show toDWORD (addZ t (addZ t bfOffBits (mulZ t (mulZ t xsize ysize) 3))
      (mulZ t (skip t xsize) ysize)) = _
  rw [hoff]
  unfold toDWORD DWORD_SIZE addZ mulZ
  have h1 : Nat.ModEq (2 ^ 32) (xsize * ysize % t.size * 3 % t.size) (xsize * ysize * 3) :=
    (modEq_mod_size t _).trans ((modEq_mod_size t _).mul_right 3)
  have h2 : Nat.ModEq (2 ^ 32) ((54 + xsize * ysize % t.size * 3 % t.size) % t.size)
      (54 + xsize * ysize * 3) :=
    (modEq_mod_size t _).trans (h1.add_left 54)
  have h3 : Nat.ModEq (2 ^ 32) (skip t xsize * ysize % t.size) (skip t xsize * ysize) :=
    modEq_mod_size t _
  have h4 : Nat.ModEq (2 ^ 32)
      (((54 + xsize * ysize % t.size * 3 % t.size) % t.size
        + skip t xsize * ysize % t.size) % t.size)
      (54 + xsize * ysize * 3 + skip t xsize * ysize) :=
    (modEq_mod_size t _).trans (h2.add h3)
  have h5 : 54 + xsize * ysize * 3 + skip t xsize * ysize
      = 54 + (xsize * 3 + skip t xsize) * ysize := by ring
  rw [h5] at h4
  exact h4

theorem readLE_append_left (l1 l2 : List Byte) (off n : Nat) (h : off + n ≤ l1.length) :
    readLE (l1 ++ l2) off n = readLE l1 off n := by
  induction n generalizing off with
  | zero => rfl
  | succ n ih =>
    show ((l1 ++ l2)[off]?.map Fin.val).getD 0 + 256 * readLE (l1 ++ l2) (off + 1) n
      = (l1[off]?.map Fin.val).getD 0 + 256 * readLE l1 (off + 1) n
    rw [List.getElem?_append_left (by omega), ih (off + 1) (by omega)]

/-- Every file `WriteBMP` produces on a file that takes each write whole is the header
followed by `data`, and the call returns `true`. -/
theorem WriteBMP_faithful_inv {t : Target} {pixels : List Byte} {xsize ysize : Nat}
    {ok : Bool} {file : List Byte}
    (h : WriteBMP t Sink.faithful pixels xsize ysize = some (ok, file)) :
    ∃ data, pixelData t pixels xsize ysize = some data ∧
      file = headerBytes t xsize ysize ++ data ∧ ok = true := by
  cases hd : pixelData t pixels xsize ysize with
  | none =>
    have hopen : Sink.faithful.fopenOk = true := rfl
    simp [WriteBMP, fwriteCalls, hd, hopen] at h
  | some data =>
    rw [WriteBMP_faithful hd] at h
    have h2 := Option.some.inj h
    exact ⟨data, rfl, (congrArg Prod.snd h2).symm, (congrArg Prod.fst h2).symm⟩

theorem header_size_fields_aux (t : Target) (x y : Nat) :
    readLE (headerBytes t x y) 10 4 = 54 := by
  rw [readLE_header_field t x y
    [leBytes 2 (bmpheader t x y).bfType, leBytes 4 (bmpheader t x y).bfSize,
     leBytes 2 (bmpheader t x y).bfReserved1, leBytes 2 (bmpheader t x y).bfReserved2]
    _ 4 (bmpheader t x y).bfOffBits 10 rfl (by simp [length_leBytes])]
  rfl

/-! ## Round trip -/

theorem reverseChannels_eq (n : Nat) (L M : List Byte) (hL : L.length = 3 * n)
    (hM : M.length = 3 * n)
    (h : ∀ x k, x < n → k < 3 → L[x * 3 + k]? = M[x * 3 + (2 - k)]?) :
    reverseChannels L = M := by
  induction n generalizing L M with
  | zero =>
    have h1 : L = [] := List.length_eq_zero.mp (by omega)
    have h2 : M = [] := List.length_eq_zero.mp (by omega)
    rw [h1, h2]; rfl
  | succ n ih =>
    match L, M, hL, hM, h with
    | a :: b :: c :: L', a' :: b' :: c' :: M', hL, hM, h =>
      have h0 := h 0 0 (by omega) (by omega)
      have h1 := h 0 1 (by omega) (by omega)
      have h2 := h 0 2 (by omega) (by omega)
      simp at h0 h1 h2
      have ht : reverseChannels L' = M' := by
        apply ih
        · simp at hL; omega
        · simp at hM; omega
        · intro x k hx hk
          have := h (x + 1) k (by omega) hk
          have e1 : (x + 1) * 3 + k = (x * 3 + k) + 3 := by omega
          have e2 : (x + 1) * 3 + (2 - k) = (x * 3 + (2 - k)) + 3 := by omega
          rw [e1, e2] at this
          simpa using this
      show c :: b :: a :: reverseChannels L' = _
      rw [ht, h0, h1, h2]
    | [], _, hL, _, _ => simp at hL
    | [_], _, hL, _, _ => simp at hL; omega
    | [_, _], _, hL, _, _ => simp at hL; omega
    | _ :: _ :: _ :: _, [], _, hM, _ => simp at hM
    | _ :: _ :: _ :: _, [_], _, hM, _ => simp at hM; omega
    | _ :: _ :: _ :: _, [_, _], _, hM, _ => simp at hM; omega

theorem flatten_rows (W : Nat) (n : Nat) (p : List Byte) (hp : p.length = n * W) :
    ((List.range n).map (fun y => (p.drop (y * W)).take W)).flatten = p := by
  induction n generalizing p with
  | zero =>
    have : p = [] := List.length_eq_zero.mp (by simpa using hp)
    simp [this]
  | succ n ih =>
    rw [List.range_succ_eq_map, List.map_cons, List.map_map, List.flatten_cons]
    have h1 : (p.drop W).length = n * W := by
      rw [List.length_drop, hp]
      have : (n + 1) * W = n * W + W := by ring
      omega
    have h2 := ih (p.drop W) h1
    have h3 : ((fun y => List.take W (List.drop (y * W) p)) ∘ Nat.succ)
        = (fun y => List.take W (List.drop (y * W) (List.drop W p))) := by
      funext y
      simp only [Function.comp, List.drop_drop]
      have : (y.succ) * W = W + y * W := by rw [Nat.succ_mul]; omega
      rw [this]
    rw [h3, h2]
    simp

/-- A parsed row with its channels reversed is the source row it was written from. -/
theorem parseRow_written {t : Target} {pixels data : List Byte} {xsize ysize r : Nat}
    (hp : pixels.length = xsize * ysize * 3)
    (hlen : data.length = (xsize * 3 + skip t xsize) * ysize)
    (hpt : ∀ r x k, r < ysize → x < xsize → k < 3 →
      data[r * (xsize * 3 + skip t xsize) + x * 3 + k]?
        = pixels[((ysize - 1 - r) * xsize + x) * 3 + (2 - k)]?)
    (hr : r < ysize) :
    reverseChannels (parseRow t (headerBytes t xsize ysize ++ data) xsize r)
      = (pixels.drop ((ysize - 1 - r) * (xsize * 3))).take (xsize * 3) := by
  have h1 : (r + 1) * (xsize * 3 + skip t xsize)
      ≤ ysize * (xsize * 3 + skip t xsize) := Nat.mul_le_mul_right _ (by omega)
  have h2 : (r + 1) * (xsize * 3 + skip t xsize)
      = r * (xsize * 3 + skip t xsize) + (xsize * 3 + skip t xsize) := by ring
  have h3 : ysize * (xsize * 3 + skip t xsize) = (xsize * 3 + skip t xsize) * ysize :=
    Nat.mul_comm _ _
  have h4 : (ysize - 1 - r + 1) * (xsize * 3) ≤ ysize * (xsize * 3) :=
    Nat.mul_le_mul_right _ (by omega)
  have h5 : (ysize - 1 - r + 1) * (xsize * 3)
      = (ysize - 1 - r) * (xsize * 3) + xsize * 3 := by ring
  have h6 : ysize * (xsize * 3) = xsize * ysize * 3 := by ring
  have h7 : ∀ x, ((ysize - 1 - r) * xsize + x) * 3
      = (ysize - 1 - r) * (xsize * 3) + x * 3 := fun x => by ring
  apply reverseChannels_eq xsize
  · unfold parseRow
    rw [List.length_take, List.length_drop, List.length_append, headerBytes_length, hlen]
    omega
  · rw [List.length_take, List.length_drop, hp]
    omega
  · intro x k hx hk
    unfold parseRow
    rw [List.getElem?_take_of_lt (by omega), List.getElem?_take_of_lt (by omega),
      List.getElem?_drop, List.getElem?_drop]
    have e1 : 54 + r * (xsize * 3 + skip t xsize) + (x * 3 + k)
        = 54 + (r * (xsize * 3 + skip t xsize) + x * 3 + k) := by omega
    have e2 : (ysize - 1 - r) * (xsize * 3) + (x * 3 + (2 - k))
        = ((ysize - 1 - r) * xsize + x) * 3 + (2 - k) := by rw [h7]; omega
    rw [e1, e2, getElem?_header_append]
    exact hpt r x k hr hx hk

theorem parseBMP_written {t : Target} {pixels data : List Byte} {xsize ysize : Nat}
    (hp : pixels.length = xsize * ysize * 3)
    (hlen : data.length = (xsize * 3 + skip t xsize) * ysize)
    (hpt : ∀ r x k, r < ysize → x < xsize → k < 3 →
      data[r * (xsize * 3 + skip t xsize) + x * 3 + k]?
        = pixels[((ysize - 1 - r) * xsize + x) * 3 + (2 - k)]?) :
    parseBMP t (headerBytes t xsize ysize ++ data) xsize ysize = pixels := by
  unfold parseBMP
  rw [← List.map_reverse, List.range_eq_range', List.reverse_range', List.map_map,
    List.map_map]
  have hrows : List.map ((reverseChannels ∘ parseRow t (headerBytes t xsize ysize ++ data) xsize)
        ∘ fun x => 0 + ysize - 1 - x) (List.range ysize)
      = List.map (fun y => (pixels.drop (y * (xsize * 3))).take (xsize * 3))
          (List.range ysize) := by
    apply List.map_congr_left
    intro y hy
    have hy2 : y < ysize := List.mem_range.mp hy
    simp only [Function.comp]
    rw [parseRow_written hp hlen hpt (by omega)]
    have : ysize - 1 - (0 + ysize - 1 - y) = y := by omega
    rw [this]
  rw [hrows]
  exact flatten_rows (xsize * 3) ysize pixels (by rw [hp]; ring)

/-! ## The decode loop -/

theorem decodeLoop_of_advance {t : Target} {st st1 : DecodeState} {pre : List Event}
    (h : advance t st pre = some st1) (rest : List Event) :
    decodeLoop t st (pre ++ rest) = decodeLoop t st1 rest := by
  induction pre generalizing st with
  | nil =>
    have : st = st1 := Option.some.inj h
    rw [this]; rfl
  | cons ev pre ih =>
    rw [List.cons_append]
    unfold advance at h
    have hcons : decodeLoop t st (ev :: (pre ++ rest))
        = match handle t st ev with
          | .running st2 => decodeLoop t st2 (pre ++ rest)
          | .returned ok st2 => some (ok, st2, pre ++ rest) := rfl
    rw [hcons]
    cases hh : handle t st ev with
    | running st2 =>
      rw [hh] at h
      exact ih h
    | returned ok st2 =>
      rw [hh] at h
      cases h

theorem handle_terminal (t : Target) (st : DecodeState) {ev : Event}
    (h : ev.continues = false) :
    handle t st ev = .returned (decide (ev = .JXL_DEC_SUCCESS)) st := by
  cases ev <;> first | rfl | cases h

theorem advance_of_ok (t : Target) (st : DecodeState) (pre : List Event)
    (hpre : ∀ e ∈ pre, e.continues = true ∧ e.queriesOk = true)
    (hsz : sizesMatch t st.xsize st.ysize pre = true) :
    ∃ st1, advance t st pre = some st1 := by
  induction pre generalizing st with
  | nil => exact ⟨st, rfl⟩
  | cons ev pre ih =>
    obtain ⟨hc, hq⟩ := hpre ev (List.mem_cons_self _ _)
    have hpre2 : ∀ e ∈ pre, e.continues = true ∧ e.queriesOk = true :=
      fun e he => hpre e (List.mem_cons_of_mem _ he)
    cases ev with
    | JXL_DEC_SUCCESS => cases hc
    | JXL_DEC_ERROR => cases hc
    | JXL_DEC_NEED_MORE_INPUT => cases hc
    | other code => cases hc
    | JXL_DEC_FULL_IMAGE =>
      have hsz2 : sizesMatch t st.xsize st.ysize pre = true := hsz
      exact ih st hpre2 hsz2
    | JXL_DEC_BASIC_INFO getOk x y n =>
      have hg : getOk = true := hq
      subst hg
      have hsz2 : sizesMatch t x y pre = true := hsz
      exact ih { st with xsize := x, ysize := y, threads := some n } hpre2 hsz2
    | JXL_DEC_COLOR_ENCODING sizeOk icc_size getOk profile =>
      have hq2 : sizeOk = true ∧ getOk = true := by simpa [Event.queriesOk] using hq
      obtain ⟨h1, h2⟩ := hq2
      subst h1 h2
      have hsz2 : sizesMatch t st.xsize st.ysize pre = true := hsz
      exact ih { st with icc_profile := storeInto (resize st.icc_profile icc_size) profile }
        hpre2 hsz2
    | JXL_DEC_NEED_IMAGE_OUT_BUFFER sizeOk buffer_size setOk =>
      have hq2 : sizeOk = true ∧ setOk = true := by simpa [Event.queriesOk] using hq
      obtain ⟨h1, h2⟩ := hq2
      subst h1 h2
      have hsz3 : buffer_size = mulZ t (mulZ t st.xsize st.ysize) 3
          ∧ sizesMatch t st.xsize st.ysize pre = true := by
        simpa [sizesMatch] using hsz
      obtain ⟨hb, hsz2⟩ := hsz3
      have hstep : handle t st (.JXL_DEC_NEED_IMAGE_OUT_BUFFER true buffer_size true)
          = .running { st with
              pixels := resize st.pixels (mulZ t (mulZ t st.xsize st.ysize) 3),
              outBuffer := some (resize st.pixels (mulZ t (mulZ t st.xsize st.ysize) 3)).length } := by
        simp [handle, hb]
      unfold advance
      rw [hstep]
      exact ih _ hpre2 hsz2

theorem length_resize (v : List Byte) (n : Nat) : (resize v n).length = n := by
  unfold resize
  rw [List.length_append, List.length_take, List.length_replicate]
  omega

theorem resize_length_self (v : List Byte) : resize v v.length = v := by
  unfold resize
  rw [List.take_length, Nat.sub_self]
  exact List.append_nil v

theorem advance_cons_running {t : Target} {st st1 : DecodeState} {ev : Event}
    (h : handle t st ev = .running st1) (rest : List Event) :
    advance t st (ev :: rest) = advance t st1 rest := by
  show (match handle t st ev with
    | .running st2 => advance t st2 rest
    | .returned _ _ => none) = _
  rw [h]

/-- Going on through two runs of rounds is going on through the first, then the second. -/
theorem advance_append {t : Target} {st st2 : DecodeState} {a b : List Event}
    (h : advance t st (a ++ b) = some st2) :
    ∃ st1, advance t st a = some st1 ∧ advance t st1 b = some st2 := by
  induction a generalizing st with
  | nil => exact ⟨st, rfl, h⟩
  | cons ev a ih =>
    rw [List.cons_append] at h
    cases hh : handle t st ev with
    | running s1 =>
      rw [advance_cons_running hh] at h
      obtain ⟨st1, h1, h2⟩ := ih h
      exact ⟨st1, by rw [advance_cons_running hh]; exact h1, h2⟩
    | returned ok s1 =>
      have : advance t st (ev :: (a ++ b)) = none := by
        show (match handle t st ev with
          | .running st2 => advance t st2 (a ++ b)
          | .returned _ _ => none) = _
        rw [hh]
      rw [this] at h
      cases h

/-- When the loop returns, the rounds it consumed are some rounds it went on after, then the
round it returned at. -/
theorem decodeLoop_consumed {t : Target} {st0 st : DecodeState} {evs rest : List Event}
    {ok : Bool} (h : decodeLoop t st0 evs = some (ok, st, rest)) :
    ∃ init last st1, evs = init ++ last :: rest ∧ advance t st0 init = some st1 ∧
      handle t st1 last = .returned ok st := by
  induction evs generalizing st0 with
  | nil => cases h
  | cons ev evs ih =>
    have hcons : decodeLoop t st0 (ev :: evs)
        = match handle t st0 ev with
          | .running st2 => decodeLoop t st2 evs
          | .returned ok2 st2 => some (ok2, st2, evs) := rfl
    rw [hcons] at h
    cases hh : handle t st0 ev with
    | running s1 =>
      rw [hh] at h
      obtain ⟨init, last, st1, he, ha, hl⟩ := ih h
      refine ⟨ev :: init, last, st1, by rw [he]; rfl, ?_, hl⟩
      rw [advance_cons_running hh]
      exact ha
    | returned ok2 s1 =>
      rw [hh] at h
      have h2 := Option.some.inj h
      have e1 : ok2 = ok := congrArg Prod.fst h2
      have e2 : s1 = st := congrArg (fun p => p.2.1) h2
      have e3 : evs = rest := congrArg (fun p => p.2.2) h2
      subst e1 e2 e3
      exact ⟨[], ev, st0, rfl, rfl, hh⟩

/-- When `DecodeJpegXlOneShot` returns having consumed the rounds `es`, not none of them,
it went on after all of `es` but the last and returned at the last. -/
theorem DecodeJpegXlOneShot_consumed {t : Target} {codec : Codec} {pixels : List Byte}
    {xsize ysize : Nat} {ok : Bool} {st : DecodeState} {es post : List Event}
    (hev : codec.events = es ++ post) (hne : es ≠ [])
    (h : DecodeJpegXlOneShot t codec pixels xsize ysize = some (ok, st, post)) :
    ∃ init last st1, es = init ++ [last] ∧
      advance t (initialState pixels xsize ysize) init = some st1 ∧
      handle t st1 last = .returned ok st := by
  have hlen : 0 < es.length := List.length_pos.mpr hne
  have hnot : ∀ s1 : DecodeState, some (false, s1, codec.events) ≠ some (ok, st, post) := by
    intro s1 hc
    have h2 := Option.some.inj hc
    have e3 : codec.events = post := congrArg (fun p => p.2.2) h2
    have := congrArg List.length (hev.symm.trans e3)
    rw [List.length_append] at this
    omega
  unfold DecodeJpegXlOneShot at h
  cases hs : codec.subscribeOk with
  | false =>
    rw [hs] at h
    exact absurd h (hnot _)
  | true =>
    cases hr : codec.setRunnerOk with
    | false =>
      rw [hs, hr] at h
      exact absurd h (hnot _)
    | true =>
      rw [hs, hr] at h
      simp only [Bool.true_eq_false, if_false] at h
      obtain ⟨init, last, st1, he, ha, hl⟩ := decodeLoop_consumed h
      refine ⟨init, last, st1, ?_, ha, hl⟩
      rw [hev] at he
      have he2 : es ++ post = (init ++ [last]) ++ post := by
        rw [he, List.append_assoc]; rfl
      exact List.append_cancel_right he2

/-! ## What one round of the decode loop changes -/

/-- A round that is not a basic-info event leaves the recorded dimensions as they are. -/
theorem handle_dims (t : Target) (st : DecodeState) {ev : Event}
    (h : ev.isBasicInfo = false) :
    (handle t st ev).state.xsize = st.xsize ∧ (handle t st ev).state.ysize = st.ysize := by
  cases ev with
  | JXL_DEC_BASIC_INFO getOk x y n => cases h
  | JXL_DEC_NEED_IMAGE_OUT_BUFFER sizeOk buffer_size setOk =>
    by_cases hb : buffer_size = mulZ t (mulZ t st.xsize st.ysize) 3 <;>
      cases sizeOk <;> cases setOk <;> simp [handle, Outcome.state, hb]
  | JXL_DEC_COLOR_ENCODING sizeOk icc_size getOk profile =>
    cases sizeOk <;> cases getOk <;> simp [handle, Outcome.state]
  | JXL_DEC_SUCCESS => exact ⟨rfl, rfl⟩
  | JXL_DEC_ERROR => exact ⟨rfl, rfl⟩
  | JXL_DEC_NEED_MORE_INPUT => exact ⟨rfl, rfl⟩
  | JXL_DEC_FULL_IMAGE => exact ⟨rfl, rfl⟩
  | other code => exact ⟨rfl, rfl⟩

/-- A round that is not a sink request leaves the pixel buffer and its registration as
they are. -/
theorem handle_pixels_of_not_sink (t : Target) (st : DecodeState) {ev : Event}
    (h : ev.isSinkRequest = false) :
    (handle t st ev).state.pixels = st.pixels ∧
      (handle t st ev).state.outBuffer = st.outBuffer := by
  cases ev with
  | JXL_DEC_NEED_IMAGE_OUT_BUFFER sizeOk buffer_size setOk => cases h
  | JXL_DEC_BASIC_INFO getOk x y n =>
    cases getOk <;> simp [handle, Outcome.state]
  | JXL_DEC_COLOR_ENCODING sizeOk icc_size getOk profile =>
    cases sizeOk <;> cases getOk <;> simp [handle, Outcome.state]
  | JXL_DEC_SUCCESS => exact ⟨rfl, rfl⟩
  | JXL_DEC_ERROR => exact ⟨rfl, rfl⟩
  | JXL_DEC_NEED_MORE_INPUT => exact ⟨rfl, rfl⟩
  | JXL_DEC_FULL_IMAGE => exact ⟨rfl, rfl⟩
  | other code => exact ⟨rfl, rfl⟩

/-- A sink request the loop goes on after reported the size computed from the recorded
dimensions, kept the dimensions, and left the pixel buffer with that length. -/
theorem handle_sink_running {t : Target} {st st1 : DecodeState} {sizeOk setOk : Bool}
    {buffer_size : Nat}
    (h : handle t st (.JXL_DEC_NEED_IMAGE_OUT_BUFFER sizeOk buffer_size setOk) = .running st1) :
    st1.xsize = st.xsize ∧ st1.ysize = st.ysize ∧
      buffer_size = mulZ t (mulZ t st.xsize st.ysize) 3 ∧
      st1.pixels.length = buffer_size := by
  by_cases hb : buffer_size = mulZ t (mulZ t st.xsize st.ysize) 3
  · cases sizeOk <;> cases setOk <;> simp [handle, hb] at h
    subst h
    exact ⟨rfl, rfl, hb, by rw [hb]; exact length_resize _ _⟩
  · cases sizeOk <;> cases setOk <;> simp [handle, hb] at h

/-- A basic-info event the loop goes on after recorded the reported dimensions and kept the
pixel buffer. -/
theorem handle_basicInfo_running {t : Target} {st st1 : DecodeState} {getOk : Bool}
    {x y n : Nat} (h : handle t st (.JXL_DEC_BASIC_INFO getOk x y n) = .running st1) :
    st1.xsize = x ∧ st1.ysize = y ∧ st1.pixels = st.pixels := by
  cases getOk <;> simp [handle] at h
  subst h
  exact ⟨rfl, rfl, rfl⟩

/-- Once the pixel buffer has the length of the recorded dimensions, no round other than a
basic-info event changes it. -/
theorem handle_pixels_of_sized (t : Target) {st : DecodeState} {ev : Event}
    (h : ev.isBasicInfo = false) (hs : Sized t st) :
    (handle t st ev).state.pixels = st.pixels := by
  cases hk : ev.isSinkRequest with
  | false => exact (handle_pixels_of_not_sink t st hk).1
  | true =>
    cases ev with
    | JXL_DEC_NEED_IMAGE_OUT_BUFFER sizeOk buffer_size setOk =>
      have hr : resize st.pixels (mulZ t (mulZ t st.xsize st.ysize) 3) = st.pixels := by
        rw [← hs]; exact resize_length_self _
      by_cases hb : buffer_size = mulZ t (mulZ t st.xsize st.ysize) 3 <;>
        cases sizeOk <;> cases setOk <;> simp [handle, Outcome.state, hb, hr]
    | JXL_DEC_BASIC_INFO getOk x y n => cases h
    | JXL_DEC_COLOR_ENCODING sizeOk icc_size getOk profile => cases hk
    | JXL_DEC_SUCCESS => cases hk
    | JXL_DEC_ERROR => cases hk
    | JXL_DEC_NEED_MORE_INPUT => cases hk
    | JXL_DEC_FULL_IMAGE => cases hk
    | other code => cases hk

theorem sized_of_eq {t : Target} {st st1 : DecodeState} (hs : Sized t st)
    (hx : st1.xsize = st.xsize) (hy : st1.ysize = st.ysize) (hp : st1.pixels = st.pixels) :
    Sized t st1 := by
  unfold Sized at *
  rw [hx, hy, hp]
  exact hs

/-- Going on through rounds none of which is a basic-info event keeps the dimensions. -/
theorem advance_dims {t : Target} {st st1 : DecodeState} {es : List Event}
    (hno : ∀ e ∈ es, e.isBasicInfo = false) (h : advance t st es = some st1) :
    st1.xsize = st.xsize ∧ st1.ysize = st.ysize := by
  induction es generalizing st with
  | nil =>
    have : st = st1 := Option.some.inj h
    subst this
    exact ⟨rfl, rfl⟩
  | cons ev es ih =>
    cases hh : handle t st ev with
    | running s1 =>
      rw [advance_cons_running hh] at h
      have hd := handle_dims t st (hno ev (List.mem_cons_self _ _))
      rw [hh] at hd
      obtain ⟨h1, h2⟩ := ih (fun e he => hno e (List.mem_cons_of_mem _ he)) h
      exact ⟨h1.trans hd.1, h2.trans hd.2⟩
    | returned ok s1 =>
      have : advance t st (ev :: es) = none := by
        show (match handle t st ev with
          | .running st2 => advance t st2 es
          | .returned _ _ => none) = _
        rw [hh]
      rw [this] at h
      cases h

/-- Going on through rounds none of which is a basic-info event keeps a pixel buffer that
has the length of the recorded dimensions. -/
theorem advance_pixels_of_sized {t : Target} {st st1 : DecodeState} {es : List Event}
    (hno : ∀ e ∈ es, e.isBasicInfo = false) (hs : Sized t st)
    (h : advance t st es = some st1) :
    st1.pixels = st.pixels := by
  induction es generalizing st with
  | nil =>
    have : st = st1 := Option.some.inj h
    subst this
    rfl
  | cons ev es ih =>
    cases hh : handle t st ev with
    | running s1 =>
      rw [advance_cons_running hh] at h
      have hev := hno ev (List.mem_cons_self _ _)
      have hd := handle_dims t st hev
      have hp := handle_pixels_of_sized t hev hs
      rw [hh] at hd hp
      have hs1 : Sized t s1 := sized_of_eq hs hd.1 hd.2 hp
      exact (ih (fun e he => hno e (List.mem_cons_of_mem _ he)) hs1 h).trans hp
    | returned ok s1 =>
      have : advance t st (ev :: es) = none := by
        show (match handle t st ev with
          | .running st2 => advance t st2 es
          | .returned _ _ => none) = _
        rw [hh]
      rw [this] at h
      cases h

/-- After a sink request the loop went on after, and further rounds none of which is a
basic-info event, the dimensions are those recorded at the sink request, and the pixel
buffer is the one the sink request left, of the length the sink request reported, which is
`xsize * ysize * 3` on `size_t`. -/
theorem advance_after_sink {t : Target} {st st2 : DecodeState} {sizeOk setOk : Bool}
    {buffer_size : Nat} {mid : List Event}
    (hno : ∀ e ∈ mid, e.isBasicInfo = false)
    (h : advance t st (.JXL_DEC_NEED_IMAGE_OUT_BUFFER sizeOk buffer_size setOk :: mid)
      = some st2) :
    ∃ st1, advance t st [.JXL_DEC_NEED_IMAGE_OUT_BUFFER sizeOk buffer_size setOk] = some st1 ∧
      Sized t st1 ∧ st1.pixels.length = buffer_size ∧ st2.pixels = st1.pixels ∧
      st2.xsize = st.xsize ∧ st2.ysize = st.ysize ∧ Sized t st2 := by
  cases hh : handle t st (.JXL_DEC_NEED_IMAGE_OUT_BUFFER sizeOk buffer_size setOk) with
  | running s1 =>
    rw [advance_cons_running hh] at h
    obtain ⟨hx, hy, hb, hl⟩ := handle_sink_running hh
    have hs1 : Sized t s1 := by
      unfold Sized
      rw [hl, hb, hx, hy]
    have hd := advance_dims hno h
    have hp := advance_pixels_of_sized hno hs1 h
    refine ⟨s1, ?_, hs1, hl, hp, hd.1.trans hx, hd.2.trans hy, sized_of_eq hs1 hd.1 hd.2 hp⟩
    rw [advance_cons_running hh]
    rfl
  | returned ok s1 =>
    have : advance t st (.JXL_DEC_NEED_IMAGE_OUT_BUFFER sizeOk buffer_size setOk :: mid)
        = none := by
      show (match handle t st (.JXL_DEC_NEED_IMAGE_OUT_BUFFER sizeOk buffer_size setOk) with
        | .running st2 => advance t st2 mid
        | .returned _ _ => none) = _
      rw [hh]
    rw [this] at h
    cases h

theorem handle_returned_true {t : Target} {st st1 : DecodeState} {ev : Event}
    (h : handle t st ev = .returned true st1) : ev = .JXL_DEC_SUCCESS ∧ st1 = st := by
  cases ev with
  | JXL_DEC_SUCCESS =>
    have h2 : Outcome.returned true st = Outcome.returned true st1 := h
    injection h2 with _ h3
    exact ⟨rfl, h3.symm⟩
  | JXL_DEC_ERROR => cases h
  | JXL_DEC_NEED_MORE_INPUT => cases h
  | JXL_DEC_FULL_IMAGE => cases h
  | other code => cases h
  | JXL_DEC_BASIC_INFO getOk x y n =>
    cases getOk <;> simp [handle] at h
  | JXL_DEC_COLOR_ENCODING sizeOk icc_size getOk profile =>
    cases sizeOk <;> cases getOk <;> simp [handle] at h
  | JXL_DEC_NEED_IMAGE_OUT_BUFFER sizeOk buffer_size setOk =>
    by_cases hb : buffer_size = mulZ t (mulZ t st.xsize st.ysize) 3 <;>
      cases sizeOk <;> cases setOk <;> simp [handle, hb] at h

/-- When `DecodeJpegXlOneShot` returns having consumed `pre`, then `ev`, then the rounds
`tail`, not none: it went on after `pre`, after `ev` and after all of `tail` but its last
round, at which it returned. -/
theorem DecodeJpegXlOneShot_tail {t : Target} {codec : Codec} {pixels : List Byte}
    {xsize ysize : Nat} {ok : Bool} {st : DecodeState} {pre tail post : List Event}
    {ev : Event}
    (hev : codec.events = pre ++ ev :: tail ++ post) (hne : tail ≠ [])
    (h : DecodeJpegXlOneShot t codec pixels xsize ysize = some (ok, st, post)) :
    ∃ s0 s1 s2 L last, tail = L ++ [last] ∧
      advance t (initialState pixels xsize ysize) pre = some s0 ∧
      handle t s0 ev = .running s1 ∧ advance t s1 L = some s2 ∧
      handle t s2 last = .returned ok st := by
  obtain ⟨init, last, s2, he, ha, hl⟩ :=
    DecodeJpegXlOneShot_consumed hev (by simp) h
  rcases List.eq_nil_or_concat tail with hnil | ⟨L, b, hL0⟩
  · exact absurd hnil hne
  · have hL : tail = L ++ [b] := by rw [hL0, List.concat_eq_append]
    have he2 : (pre ++ ev :: L) ++ [b] = init ++ [last] := by
      rw [← he, hL]
      simp
    obtain ⟨hi, hb⟩ := List.append_inj' he2 rfl
    have hb2 : b = last := by simpa using hb
    subst hb2
    rw [← hi] at ha
    obtain ⟨s0, h0, h1⟩ := advance_append ha
    cases hh : handle t s0 ev with
    | running s1 =>
      rw [advance_cons_running hh] at h1
      exact ⟨s0, s1, s2, L, b, hL, h0, hh, h1, hl⟩
    | returned ok2 s1 =>
      have : advance t s0 (ev :: L) = none := by
        show (match handle t s0 ev with
          | .running st2 => advance t st2 L
          | .returned _ _ => none) = _
        rw [hh]
      rw [this] at h1
      cases h1

/-! ## The copy loops outside the buffer -/

theorem copyByte_none_of_ge {pixels data : List Byte} {dst : Nat} (src : Nat)
    (h : data.length ≤ dst) : copyByte pixels data dst src = none := by
  unfold copyByte
  cases pixels[src]? with
  | none => rfl
  | some b => simp [Nat.not_lt.mpr h]

/-- When both loops run at least once and the first destination offset is outside `data`,
the copy loops fail at their first `memcpy`. -/
theorem loopY_none_of_first {t : Target} {xsize ysize : Nat} (pixels data : List Byte)
    (hy : 0 < (toInt ysize).toNat) (hx : 0 < (toInt xsize).toNat)
    (h : data.length ≤ dstIndex t xsize ysize 0 0 2) :
    loopY t pixels xsize ysize data = none := by
  obtain ⟨n, hn⟩ := Nat.exists_eq_succ_of_ne_zero (Nat.pos_iff_ne_zero.mp hy)
  obtain ⟨m, hm⟩ := Nat.exists_eq_succ_of_ne_zero (Nat.pos_iff_ne_zero.mp hx)
  have hc : loopC t pixels xsize ysize 0 0 data = none := by
    unfold loopC
    rw [List.foldlM_cons, copyByte_none_of_ge _ h]
    rfl
  have hxl : loopX t pixels xsize ysize 0 data = none := by
    unfold loopX
    rw [hm, Nat.succ_eq_add_one, List.range_succ_eq_map, List.foldlM_cons, hc]
    rfl
  unfold loopY
  rw [hn, Nat.succ_eq_add_one, List.range_succ_eq_map, List.foldlM_cons, hxl]
  rfl

/-! ## The properties of the specification: WriteBMP -/

/-- C1: for positive dimensions whose file size fits 31 bits and a pixel buffer of length
`xsize * ysize * 3`, `WriteBMP` succeeds, and in the file it writes the byte at offset
`54 + r * (xsize * 3 + skip) + x * 3 + k` is `pixels[((ysize - 1 - r) * xsize + x) * 3 + (2 - k)]`
for every row `r < ysize`, column `x < xsize` and channel `k < 3`: output row `r` is source
row `ysize - 1 - r` and every pixel is stored blue, green, red. -/
theorem WriteBMP_pixel_region (t : Target) (pixels : List Byte) (xsize ysize : Nat)
    (hx : 0 < xsize) (hy : 0 < ysize) (hp : pixels.length = xsize * ysize * 3)
    (hfit : 54 + (xsize * 3 + skip t xsize) * ysize < 2 ^ 31) :
    ∃ file, WriteBMP t Sink.faithful pixels xsize ysize = some (true, file) ∧
      ∀ r x k, r < ysize → x < xsize → k < 3 →
        ∃ b, pixels[((ysize - 1 - r) * xsize + x) * 3 + (2 - k)]? = some b ∧
          file[54 + r * (xsize * 3 + skip t xsize) + x * 3 + k]? = some b := by
  obtain ⟨data, hw, _, h1, _⟩ := WriteBMP_file (fits_of_lt hx hy hfit) hp
  refine ⟨_, hw, ?_⟩
  intro r x k hr hxx hk
  have hlt := src_lt xsize hr hxx hk
  rw [← hp] at hlt
  refine ⟨pixels[((ysize - 1 - r) * xsize + x) * 3 + (2 - k)], List.getElem?_eq_getElem hlt, ?_⟩
  have hoff : 54 + r * (xsize * 3 + skip t xsize) + x * 3 + k
      = 54 + (r * (xsize * 3 + skip t xsize) + x * 3 + k) := by omega
  rw [hoff, getElem?_header_append, h1 r x k hr hxx hk]
  exact List.getElem?_eq_getElem hlt

/-- C1, at the 1x1 image (R=10, G=20, B=30): the hypotheses hold and the bytes at offsets
54, 55, 56 are 30, 20, 10. -/
theorem WriteBMP_pixel_region_witness :
    (0 < 1 ∧ ([10, 20, 30] : List Byte).length = 1 * 1 * 3
      ∧ 54 + (1 * 3 + skip .x64 1) * 1 < 2 ^ 31) ∧
    ∃ file, WriteBMP .x64 Sink.faithful [10, 20, 30] 1 1 = some (true, file) ∧
      file[54]? = some 30 ∧ file[55]? = some 20 ∧ file[56]? = some 10 := by
  refine ⟨by decide, ?_⟩
  obtain ⟨file, hw, hpt⟩ := WriteBMP_pixel_region .x64 [10, 20, 30] 1 1
    (by decide) (by decide) (by decide) (by decide)
  refine ⟨file, hw, ?_, ?_, ?_⟩
  · obtain ⟨b, hb, hf⟩ := hpt 0 0 0 (by decide) (by decide) (by decide)
    have hb2 : b = 30 := by simpa using hb.symm
    simpa [hb2] using hf
  · obtain ⟨b, hb, hf⟩ := hpt 0 0 1 (by decide) (by decide) (by decide)
    have hb2 : b = 20 := by simpa using hb.symm
    simpa [hb2] using hf
  · obtain ⟨b, hb, hf⟩ := hpt 0 0 2 (by decide) (by decide) (by decide)
    have hb2 : b = 10 := by simpa using hb.symm
    simpa [hb2] using hf

/-- C2: round trip. For positive dimensions whose file size fits 31 bits and a pixel buffer
`pixels` of length `xsize * ysize * 3`, parsing the file `WriteBMP` writes (rows read at
stride `xsize * 3 + skip` from offset 54, padding dropped, row order reversed, channel order
of every pixel reversed) returns exactly `pixels`; so two buffers of these dimensions with
the same output are equal. -/
theorem WriteBMP_round_trip (t : Target) (pixels : List Byte) (xsize ysize : Nat)
    (hx : 0 < xsize) (hy : 0 < ysize) (hp : pixels.length = xsize * ysize * 3)
    (hfit : 54 + (xsize * 3 + skip t xsize) * ysize < 2 ^ 31) :
    (∃ file, WriteBMP t Sink.faithful pixels xsize ysize = some (true, file) ∧
      parseBMP t file xsize ysize = pixels) ∧
    (∀ other : List Byte, other.length = xsize * ysize * 3 →
      WriteBMP t Sink.faithful other xsize ysize = WriteBMP t Sink.faithful pixels xsize ysize →
      other = pixels) := by
  have hf := fits_of_lt hx hy hfit
  obtain ⟨data, hw, hlen, hpt, _⟩ := WriteBMP_file hf hp
  refine ⟨⟨_, hw, parseBMP_written hp hlen hpt⟩, ?_⟩
  intro other ho heq
  obtain ⟨data2, hw2, hlen2, hpt2, _⟩ := WriteBMP_file hf ho
  rw [hw, hw2] at heq
  have hfile : headerBytes t xsize ysize ++ data2 = headerBytes t xsize ysize ++ data :=
    congrArg Prod.snd (Option.some.inj heq)
  rw [← parseBMP_written ho hlen2 hpt2, ← parseBMP_written hp hlen hpt, hfile]

/-- C2, at the 2x2 image with samples 1..12 on x64: the hypotheses hold, and parsing the
written file gives the samples back. -/
theorem WriteBMP_round_trip_witness :
    (0 < 2 ∧ ([1, 2, 3, 4, 5, 6, 7, 8, 9, 10, 11, 12] : List Byte).length = 2 * 2 * 3
      ∧ 54 + (2 * 3 + skip .x64 2) * 2 < 2 ^ 31) ∧
    ∃ file, WriteBMP .x64 Sink.faithful [1, 2, 3, 4, 5, 6, 7, 8, 9, 10, 11, 12] 2 2
        = some (true, file) ∧
      parseBMP .x64 file 2 2 = [1, 2, 3, 4, 5, 6, 7, 8, 9, 10, 11, 12] :=
  ⟨by decide, (WriteBMP_round_trip .x64 [1, 2, 3, 4, 5, 6, 7, 8, 9, 10, 11, 12] 2 2
    (by decide) (by decide) (by decide) (by decide)).1⟩

/-- C3: for every `xsize`, the `skip` that `WriteBMP` computes (the C expression
`4 - ((xsize * 24) >> 3) & 3` with C precedence and `size_t` wrap-around, guarded by the
`xsize % 4 == 0` test) is `(4 - (xsize * 3) % 4) % 4`: it is 0 exactly when `xsize * 3` is a
multiple of 4, and `4 - (xsize * 3) % 4` otherwise. -/
theorem skip_spec (t : Target) (xsize : Nat) :
    skip t xsize = (4 - (xsize * 3) % 4) % 4 ∧
    (skip t xsize = 0 ↔ (xsize * 3) % 4 = 0) ∧
    skip t xsize = (if (xsize * 3) % 4 = 0 then 0 else 4 - (xsize * 3) % 4) := by
  have h := skip_eq t xsize
  refine ⟨h, ?_, ?_⟩
  · rw [h]; omega
  · rw [h]; split <;> omega

/-- C4: for every `xsize` and `ysize`, the 32-bit field at bytes 2-5 of the header
`WriteBMP` writes is `54 + (xsize * 3 + skip) * ysize` reduced modulo `2 ^ 32`, and the
field at bytes 10-13 is 54; the same holds of every file `WriteBMP` produces. For
`xsize = 2`, `ysize = 1` the fields are 62 and 54. -/
theorem header_size_fields (t : Target) (xsize ysize : Nat) :
    readLE (headerBytes t xsize ysize) 2 4
      = (54 + (xsize * 3 + skip t xsize) * ysize) % 2 ^ 32 ∧
    readLE (headerBytes t xsize ysize) 10 4 = 54 ∧
    (∀ (pixels : List Byte) (ok : Bool) (file : List Byte),
      WriteBMP t Sink.faithful pixels xsize ysize = some (ok, file) →
        readLE file 2 4 = (54 + (xsize * 3 + skip t xsize) * ysize) % 2 ^ 32 ∧
        readLE file 10 4 = 54) ∧
    readLE (headerBytes t 2 1) 2 4 = 54 + (2 * 3 + 2) * 1 ∧
    readLE (headerBytes t 2 1) 10 4 = 54 := by
  have hsize : ∀ x y, readLE (headerBytes t x y) 2 4
      = (54 + (x * 3 + skip t x) * y) % 2 ^ 32 := by
    intro x y
    rw [readLE_header_field t x y [leBytes 2 (bmpheader t x y).bfType]
      _ 4 (bmpheader t x y).bfSize 2 rfl (by simp [length_leBytes])]
    rw [bfSize_mod]
    exact Nat.mod_mod _ _
  have hoff : ∀ x y, readLE (headerBytes t x y) 10 4 = 54 :=
    header_size_fields_aux t
  refine ⟨hsize _ _, hoff _ _, ?_, ?_, hoff _ _⟩
  · intro pixels ok file hfile
    obtain ⟨data, _, hf, _⟩ := WriteBMP_faithful_inv hfile
    have hl := headerBytes_length t xsize ysize
    rw [hf, readLE_append_left _ _ 2 4 (by omega), readLE_append_left _ _ 10 4 (by omega)]
    exact ⟨hsize _ _, hoff _ _⟩
  · rw [hsize, skip_eq]
    decide

/-- C4, at the 2x1 image on x64: the written file declares size 62 and offset 54, and is
62 bytes long. -/
theorem header_size_fields_witness :
    ∃ file, WriteBMP .x64 Sink.faithful [1, 2, 3, 4, 5, 6] 2 1 = some (true, file) ∧
      readLE file 2 4 = 62 ∧ readLE file 10 4 = 54 ∧ file.length = 62 := by
  have hw : WriteBMP .x64 Sink.faithful [1, 2, 3, 4, 5, 6] 2 1
      = some (true, headerBytes .x64 2 1 ++ [3, 2, 1, 6, 5, 4, 0, 0]) := by decide
  have h := (header_size_fields .x64 2 1).2.2.1 [1, 2, 3, 4, 5, 6] true _ hw
  refine ⟨_, hw, ?_, h.2, ?_⟩
  · rw [h.1, skip_eq]
    decide
  · rw [List.length_append, headerBytes_length]
    rfl

/-- C5: for `xsize` and `ysize` that fit a signed 32-bit field, the header `WriteBMP` emits
is, in order and with no gaps, `B`, `M`, then little-endian: u32 file size, u16 0, u16 0,
u32 54, u32 40, i32 `xsize`, i32 `ysize`, u16 1, u16 24, u32 0, u32 image size, i32 100,
i32 100, u32 0, u32 0. It is 54 bytes long, every field reads back at the offset of the
file-format table of the spec, and every file `WriteBMP` produces is this header followed
by the pixel rows, which so start at byte 54. For positive dimensions whose file size fits
32 bits and every pixel buffer of length `xsize * ysize * 3`, `WriteBMP` does produce the
file: it returns `true` and the file is these 54 bytes followed by the
`(xsize * 3 + skip) * ysize` bytes of the pixel rows. -/
theorem header_layout (t : Target) (xsize ysize : Nat)
    (hx : xsize < 2 ^ 31) (hy : ysize < 2 ^ 31) :
    headerBytes t xsize ysize
      = [0x42, 0x4d] ++ leBytes 4 (bmpheader t xsize ysize).bfSize ++ leBytes 2 0
        ++ leBytes 2 0 ++ leBytes 4 54 ++ leBytes 4 40 ++ leBytes 4 xsize ++ leBytes 4 ysize
        ++ leBytes 2 1 ++ leBytes 2 24 ++ leBytes 4 0
        ++ leBytes 4 (bmpinfo t xsize ysize).biSizeImage
        ++ leBytes 4 100 ++ leBytes 4 100 ++ leBytes 4 0 ++ leBytes 4 0 ∧
    (headerBytes t xsize ysize).length = 54 ∧
    (headerBytes t xsize ysize)[0]? = some 0x42 ∧
    (headerBytes t xsize ysize)[1]? = some 0x4d ∧
    readLE (headerBytes t xsize ysize) 2 4 = (bmpheader t xsize ysize).bfSize ∧
    readLE (headerBytes t xsize ysize) 6 2 = 0 ∧
    readLE (headerBytes t xsize ysize) 8 2 = 0 ∧
    readLE (headerBytes t xsize ysize) 10 4 = 54 ∧
    readLE (headerBytes t xsize ysize) 14 4 = 40 ∧
    toInt (readLE (headerBytes t xsize ysize) 18 4) = (xsize : Int) ∧
    toInt (readLE (headerBytes t xsize ysize) 22 4) = (ysize : Int) ∧
    readLE (headerBytes t xsize ysize) 26 2 = 1 ∧
    readLE (headerBytes t xsize ysize) 28 2 = 24 ∧
    readLE (headerBytes t xsize ysize) 30 4 = 0 ∧
    readLE (headerBytes t xsize ysize) 34 4 = (bmpinfo t xsize ysize).biSizeImage ∧
    toInt (readLE (headerBytes t xsize ysize) 38 4) = 100 ∧
    toInt (readLE (headerBytes t xsize ysize) 42 4) = 100 ∧
    readLE (headerBytes t xsize ysize) 46 4 = 0 ∧
    readLE (headerBytes t xsize ysize) 50 4 = 0 ∧
    (∀ (pixels : List Byte) (ok : Bool) (file : List Byte),
      WriteBMP t Sink.faithful pixels xsize ysize = some (ok, file) →
        file.take 54 = headerBytes t xsize ysize ∧
        ∃ data, pixelData t pixels xsize ysize = some data ∧ file.drop 54 = data) ∧
    (∀ pixels : List Byte, 0 < xsize → 0 < ysize → pixels.length = xsize * ysize * 3 →
      54 + (xsize * 3 + skip t xsize) * ysize < 2 ^ 32 →
      ∃ file data, WriteBMP t Sink.faithful pixels xsize ysize = some (true, file) ∧
        file = headerBytes t xsize ysize ++ data ∧
        file.take 54 = headerBytes t xsize ysize ∧
        file.drop 54 = data ∧
        data.length = (xsize * 3 + skip t xsize) * ysize) := by
  have hx32 : xsize < 2 ^ 32 := Nat.lt_trans hx (by decide)
  have hy32 : ysize < 2 ^ 32 := Nat.lt_trans hy (by decide)
  have hw : toDWORD xsize = xsize := toDWORD_of_lt hx32
  have hh : toDWORD ysize = ysize := toDWORD_of_lt hy32
  have hsz : (bmpheader t xsize ysize).bfSize < 2 ^ 32 := toDWORD_lt _
  have him : (bmpinfo t xsize ysize).biSizeImage < 2 ^ 32 := toDWORD_lt _
  have hwrites : headerWrites t xsize ysize
      = [ leBytes 2 0x4d42, leBytes 4 (bmpheader t xsize ysize).bfSize, leBytes 2 0,
          leBytes 2 0, leBytes 4 54, leBytes 4 40, leBytes 4 xsize, leBytes 4 ysize,
          leBytes 2 1, leBytes 2 24, leBytes 4 0,
          leBytes 4 (bmpinfo t xsize ysize).biSizeImage,
          leBytes 4 100, leBytes 4 100, leBytes 4 0, leBytes 4 0 ] := by
    show [ leBytes 2 0x4d42, leBytes 4 (bmpheader t xsize ysize).bfSize, leBytes 2 0,
          leBytes 2 0, leBytes 4 54, leBytes 4 40, leBytes 4 (toDWORD xsize),
          leBytes 4 (toDWORD ysize), leBytes 2 1, leBytes 2 24, leBytes 4 0,
          leBytes 4 (bmpinfo t xsize ysize).biSizeImage,
          leBytes 4 100, leBytes 4 100, leBytes 4 0, leBytes 4 0 ] = _
    rw [hw, hh]
  have hfield : ∀ (cs1 cs2 : List (List Byte)) (n v off : Nat),
      headerWrites t xsize ysize = cs1 ++ leBytes n v :: cs2 → cs1.flatten.length = off →
      readLE (headerBytes t xsize ysize) off n = v % 256 ^ n :=
    fun cs1 cs2 n v off => readLE_header_field t xsize ysize cs1 cs2 n v off
  have hmagic : leBytes 2 0x4d42 = [0x42, 0x4d] := by decide
  have hbytes : headerBytes t xsize ysize
      = [0x42, 0x4d] ++ leBytes 4 (bmpheader t xsize ysize).bfSize ++ leBytes 2 0
        ++ leBytes 2 0 ++ leBytes 4 54 ++ leBytes 4 40 ++ leBytes 4 xsize ++ leBytes 4 ysize
        ++ leBytes 2 1 ++ leBytes 2 24 ++ leBytes 4 0
        ++ leBytes 4 (bmpinfo t xsize ysize).biSizeImage
        ++ leBytes 4 100 ++ leBytes 4 100 ++ leBytes 4 0 ++ leBytes 4 0 := by
    unfold headerBytes
    rw [hwrites, hmagic]
    simp only [List.flatten, List.append_assoc, List.append_nil]
  refine ⟨hbytes, headerBytes_length t xsize ysize, ?_, ?_, ?_, ?_, ?_, ?_, ?_, ?_, ?_,
    ?_, ?_, ?_, ?_, ?_, ?_, ?_, ?_, ?_, ?_⟩
  · rw [hbytes]; simp
  · rw [hbytes]; simp
  · rw [hfield [leBytes 2 0x4d42] _ 4 (bmpheader t xsize ysize).bfSize 2 hwrites
      (by simp [length_leBytes])]
    exact Nat.mod_eq_of_lt (Nat.lt_of_lt_of_le hsz (by decide))
  · rw [hfield [leBytes 2 0x4d42, leBytes 4 (bmpheader t xsize ysize).bfSize] _ 2 0 6
      hwrites (by simp [length_leBytes])]
    exact Nat.zero_mod _
  · rw [hfield [leBytes 2 0x4d42, leBytes 4 (bmpheader t xsize ysize).bfSize, leBytes 2 0]
      _ 2 0 8 hwrites (by simp [length_leBytes])]
    exact Nat.zero_mod _
  · exact (header_size_fields_aux t xsize ysize)
  · rw [hfield [leBytes 2 0x4d42, leBytes 4 (bmpheader t xsize ysize).bfSize, leBytes 2 0,
      leBytes 2 0, leBytes 4 54] _ 4 40 14 hwrites (by simp [length_leBytes])]
    decide
  · rw [hfield [leBytes 2 0x4d42, leBytes 4 (bmpheader t xsize ysize).bfSize, leBytes 2 0,
      leBytes 2 0, leBytes 4 54, leBytes 4 40] _ 4 xsize 18 hwrites
      (by simp [length_leBytes])]
    rw [Nat.mod_eq_of_lt (Nat.lt_of_lt_of_le hx32 (by decide))]
    exact toInt_of_lt hx
  · rw [hfield [leBytes 2 0x4d42, leBytes 4 (bmpheader t xsize ysize).bfSize, leBytes 2 0,
      leBytes 2 0, leBytes 4 54, leBytes 4 40, leBytes 4 xsize] _ 4 ysize 22 hwrites
      (by simp [length_leBytes])]
    rw [Nat.mod_eq_of_lt (Nat.lt_of_lt_of_le hy32 (by decide))]
    exact toInt_of_lt hy
  · rw [hfield [leBytes 2 0x4d42, leBytes 4 (bmpheader t xsize ysize).bfSize, leBytes 2 0,
      leBytes 2 0, leBytes 4 54, leBytes 4 40, leBytes 4 xsize, leBytes 4 ysize]
      _ 2 1 26 hwrites (by simp [length_leBytes])]
    decide
  · rw [hfield [leBytes 2 0x4d42, leBytes 4 (bmpheader t xsize ysize).bfSize, leBytes 2 0,
      leBytes 2 0, leBytes 4 54, leBytes 4 40, leBytes 4 xsize, leBytes 4 ysize,
      leBytes 2 1] _ 2 24 28 hwrites (by simp [length_leBytes])]
    decide
  · rw [hfield [leBytes 2 0x4d42, leBytes 4 (bmpheader t xsize ysize).bfSize, leBytes 2 0,
      leBytes 2 0, leBytes 4 54, leBytes 4 40, leBytes 4 xsize, leBytes 4 ysize,
      leBytes 2 1, leBytes 2 24] _ 4 0 30 hwrites (by simp [length_leBytes])]
    exact Nat.zero_mod _
  · rw [hfield [leBytes 2 0x4d42, leBytes 4 (bmpheader t xsize ysize).bfSize, leBytes 2 0,
      leBytes 2 0, leBytes 4 54, leBytes 4 40, leBytes 4 xsize, leBytes 4 ysize,
      leBytes 2 1, leBytes 2 24, leBytes 4 0] _ 4 (bmpinfo t xsize ysize).biSizeImage 34
      hwrites (by simp [length_leBytes])]
    exact Nat.mod_eq_of_lt (Nat.lt_of_lt_of_le him (by decide))
  · rw [hfield [leBytes 2 0x4d42, leBytes 4 (bmpheader t xsize ysize).bfSize, leBytes 2 0,
      leBytes 2 0, leBytes 4 54, leBytes 4 40, leBytes 4 xsize, leBytes 4 ysize,
      leBytes 2 1, leBytes 2 24, leBytes 4 0,
      leBytes 4 (bmpinfo t xsize ysize).biSizeImage] _ 4 100 38 hwrites
      (by simp [length_leBytes])]
    decide
  · rw [hfield [leBytes 2 0x4d42, leBytes 4 (bmpheader t xsize ysize).bfSize, leBytes 2 0,
      leBytes 2 0, leBytes 4 54, leBytes 4 40, leBytes 4 xsize, leBytes 4 ysize,
      leBytes 2 1, leBytes 2 24, leBytes 4 0,
      leBytes 4 (bmpinfo t xsize ysize).biSizeImage, leBytes 4 100] _ 4 100 42 hwrites
      (by simp [length_leBytes])]
    decide
  · rw [hfield [leBytes 2 0x4d42, leBytes 4 (bmpheader t xsize ysize).bfSize, leBytes 2 0,
      leBytes 2 0, leBytes 4 54, leBytes 4 40, leBytes 4 xsize, leBytes 4 ysize,
      leBytes 2 1, leBytes 2 24, leBytes 4 0,
      leBytes 4 (bmpinfo t xsize ysize).biSizeImage, leBytes 4 100, leBytes 4 100]
      _ 4 0 46 hwrites (by simp [length_leBytes])]
    exact Nat.zero_mod _
  · rw [hfield [leBytes 2 0x4d42, leBytes 4 (bmpheader t xsize ysize).bfSize, leBytes 2 0,
      leBytes 2 0, leBytes 4 54, leBytes 4 40, leBytes 4 xsize, leBytes 4 ysize,
      leBytes 2 1, leBytes 2 24, leBytes 4 0,
      leBytes 4 (bmpinfo t xsize ysize).biSizeImage, leBytes 4 100, leBytes 4 100,
      leBytes 4 0] _ 4 0 50 hwrites (by simp [length_leBytes])]
    exact Nat.zero_mod _
  · intro pixels ok file hfile
    obtain ⟨data, hd, hf, _⟩ := WriteBMP_faithful_inv hfile
    have hl := headerBytes_length t xsize ysize
    refine ⟨?_, data, hd, ?_⟩
    · rw [hf, ← hl, List.take_left]
    · rw [hf, ← hl, List.drop_left]
  · intro pixels hxp hyp hp hfit
    obtain ⟨data, hwr, hlen, _, _⟩ := WriteBMP_file ⟨hxp, hyp, hfit⟩ hp
    have hl := headerBytes_length t xsize ysize
    refine ⟨_, data, hwr, rfl, ?_, ?_, hlen⟩
    · rw [← hl, List.take_left]
    · rw [← hl, List.drop_left]

/-- C5, at the 2x1 image on x64: both dimensions fit, `WriteBMP` returns `true`, the first
54 bytes of the file it writes are the header below, and the 8 bytes of the pixel row
follow from byte 54. -/
theorem header_layout_witness :
    ((2 : Nat) < 2 ^ 31 ∧ (1 : Nat) < 2 ^ 31) ∧
    ∃ file, WriteBMP .x64 Sink.faithful [1, 2, 3, 4, 5, 6] 2 1 = some (true, file) ∧
      file.take 54
        = [0x42, 0x4d, 62, 0, 0, 0, 0, 0, 0, 0, 54, 0, 0, 0, 40, 0, 0, 0, 2, 0, 0, 0, 1, 0,
           0, 0, 1, 0, 24, 0, 0, 0, 0, 0, 2, 0, 0, 0, 100, 0, 0, 0, 100, 0, 0, 0, 0, 0, 0, 0,
           0, 0, 0, 0] ∧
      (file.drop 54).length = 8 ∧ file.length = 62 := by
  have h := header_layout .x64 2 1 (by decide) (by decide)
  have hhdr : headerBytes .x64 2 1
      = [0x42, 0x4d, 62, 0, 0, 0, 0, 0, 0, 0, 54, 0, 0, 0, 40, 0, 0, 0, 2, 0, 0, 0, 1, 0,
         0, 0, 1, 0, 24, 0, 0, 0, 0, 0, 2, 0, 0, 0, 100, 0, 0, 0, 100, 0, 0, 0, 0, 0, 0, 0,
         0, 0, 0, 0] := h.1.trans (by decide)
  obtain ⟨file, data, hw, hfile, htake, hdrop, hlen⟩ :=
    h.2.2.2.2.2.2.2.2.2.2.2.2.2.2.2.2.2.2.2.2 [1, 2, 3, 4, 5, 6]
      (by decide) (by decide) (by decide) (by decide)
  have hs : skip .x64 2 = 2 := by decide
  have hlen8 : data.length = 8 := by rw [hlen, hs]
  refine ⟨by decide, file, hw, htake.trans hhdr, by rw [hdrop]; exact hlen8, ?_⟩
  rw [hfile, List.length_append, h.2.1, hlen8]

/-- C6: for positive dimensions whose file size fits 31 bits, the pixel region `WriteBMP`
writes is `ysize` rows of `xsize * 3 + skip` bytes each, that row length is a multiple of
4, and each of the `skip` bytes after the `xsize * 3` pixel bytes of every row is 0. -/
theorem WriteBMP_row_padding (t : Target) (pixels : List Byte) (xsize ysize : Nat)
    (hx : 0 < xsize) (hy : 0 < ysize) (hp : pixels.length = xsize * ysize * 3)
    (hfit : 54 + (xsize * 3 + skip t xsize) * ysize < 2 ^ 31) :
    ∃ file, WriteBMP t Sink.faithful pixels xsize ysize = some (true, file) ∧
      file.length = 54 + (xsize * 3 + skip t xsize) * ysize ∧
      (xsize * 3 + skip t xsize) % 4 = 0 ∧
      ∀ r j, r < ysize → j < skip t xsize →
        file[54 + r * (xsize * 3 + skip t xsize) + xsize * 3 + j]? = some 0 := by
  obtain ⟨data, hw, hlen, _, h2⟩ := WriteBMP_file (fits_of_lt hx hy hfit) hp
  refine ⟨_, hw, ?_, ?_, ?_⟩
  · rw [List.length_append, headerBytes_length, hlen]
  · rw [skip_eq]; omega
  · intro r j hr hj
    have hoff : 54 + r * (xsize * 3 + skip t xsize) + xsize * 3 + j
        = 54 + (r * (xsize * 3 + skip t xsize) + xsize * 3 + j) := by omega
    rw [hoff, getElem?_header_append]
    exact h2 r j hr hj

/-- C6, at the 1x1 image: the hypotheses hold, the row is 4 bytes long, and exactly one
zero byte follows the three pixel bytes (the file ends after it). -/
theorem WriteBMP_row_padding_witness :
    (0 < 1 ∧ ([10, 20, 30] : List Byte).length = 1 * 1 * 3
      ∧ 54 + (1 * 3 + skip .x64 1) * 1 < 2 ^ 31) ∧
    ∃ file, WriteBMP .x64 Sink.faithful [10, 20, 30] 1 1 = some (true, file) ∧
      skip .x64 1 = 1 ∧ file.length = 58 ∧ file[57]? = some 0 := by
  refine ⟨by decide, ?_⟩
  obtain ⟨file, hw, hlen, _, hpad⟩ := WriteBMP_row_padding .x64 [10, 20, 30] 1 1
    (by decide) (by decide) (by decide) (by decide)
  have hs : skip .x64 1 = 1 := by decide
  refine ⟨file, hw, hs, ?_, ?_⟩
  · rw [hlen, hs]
  · have := hpad 0 0 (by decide) (by decide)
    rw [hs] at this
    simpa using this

/-- C7: for positive dimensions whose file size fits 32 bits, the image-size field at
bytes 34-37 of the header is `xsize * ysize`; that is strictly less than the size
`(xsize * 3 + skip) * ysize` of the `data` vector `WriteBMP` writes after the header (for
every pixel buffer of length `xsize * ysize * 3`), which is the declared file size
(bytes 2-5) minus 54. -/
theorem image_size_field (t : Target) (xsize ysize : Nat)
    (hx : 0 < xsize) (hy : 0 < ysize)
    (hfit : 54 + (xsize * 3 + skip t xsize) * ysize < 2 ^ 32) :
    readLE (headerBytes t xsize ysize) 34 4 = xsize * ysize ∧
    xsize * ysize < (xsize * 3 + skip t xsize) * ysize ∧
    dataSize t xsize ysize = (xsize * 3 + skip t xsize) * ysize ∧
    readLE (headerBytes t xsize ysize) 2 4 - 54 = (xsize * 3 + skip t xsize) * ysize ∧
    (∀ pixels : List Byte, pixels.length = xsize * ysize * 3 →
      ∃ data, WriteBMP t Sink.faithful pixels xsize ysize
          = some (true, headerBytes t xsize ysize ++ data) ∧
        data.length = (xsize * 3 + skip t xsize) * ysize) := by
  have hf : Fits t xsize ysize := ⟨hx, hy, hfit⟩
  have harea := hf.area
  have hlt : xsize * ysize < (xsize * 3 + skip t xsize) * ysize :=
    Nat.mul_lt_mul_of_pos_right (by omega) hy
  have e1 : mulZ t xsize ysize = xsize * ysize := mulZ_of_lt (by omega)
  have himg : (bmpinfo t xsize ysize).biSizeImage = xsize * ysize := by
    show toDWORD (mulZ t xsize ysize) = _
    rw [e1]
    exact toDWORD_of_lt (by omega)
  refine ⟨?_, hlt, dataSize_eq hf, ?_, ?_⟩
  · rw [readLE_header_field t xsize ysize
      [leBytes 2 (bmpheader t xsize ysize).bfType, leBytes 4 (bmpheader t xsize ysize).bfSize,
       leBytes 2 (bmpheader t xsize ysize).bfReserved1,
       leBytes 2 (bmpheader t xsize ysize).bfReserved2,
       leBytes 4 (bmpheader t xsize ysize).bfOffBits, leBytes 4 (bmpinfo t xsize ysize).biSize,
       leBytes 4 (bmpinfo t xsize ysize).biWidth, leBytes 4 (bmpinfo t xsize ysize).biHeight,
       leBytes 2 (bmpinfo t xsize ysize).biPlanes, leBytes 2 (bmpinfo t xsize ysize).biBitCount,
       leBytes 4 (bmpinfo t xsize ysize).biCompression]
      _ 4 (bmpinfo t xsize ysize).biSizeImage 34 rfl (by simp [length_leBytes])]
    rw [himg]
    exact Nat.mod_eq_of_lt (by omega)
  · rw [readLE_header_field t xsize ysize [leBytes 2 (bmpheader t xsize ysize).bfType]
      _ 4 (bmpheader t xsize ysize).bfSize 2 rfl (by simp [length_leBytes])]
    rw [bfSize_eq hf, Nat.mod_eq_of_lt (by omega)]
    omega
  · intro pixels hp
    obtain ⟨data, hd, hlen, _, _⟩ := WriteBMP_file hf hp
    exact ⟨data, hd, hlen⟩

/-- C7, at `xsize = 2`, `ysize = 1` on x64: the hypotheses hold, the image-size field
is 2 and the pixel region is 8 bytes. -/
theorem image_size_field_witness :
    (0 < 2 ∧ 0 < 1 ∧ 54 + (2 * 3 + skip .x64 2) * 1 < 2 ^ 32) ∧
    readLE (headerBytes .x64 2 1) 34 4 = 2 ∧ dataSize .x64 2 1 = 8 := by
  have h := image_size_field .x64 2 1 (by decide) (by decide) (by decide)
  refine ⟨by decide, h.1, ?_⟩
  rw [h.2.2.1]
  decide

/-- C8 as stated fails: on a file that opens and closes but takes no byte
of any write, all 17 `fwrite` calls of the 1x1 image are incomplete (each returns 0) and
the file stays empty, yet `WriteBMP` returns `true`. -/
theorem WriteBMP_short_write_returns_true :
    ∃ calls, fwriteCalls .x64 [10, 20, 30] 1 1 = some calls ∧
      Sink.results ⟨true, fun _ => some 0, true⟩ 0 calls = List.replicate 17 0 ∧
      WriteBMP .x64 ⟨true, fun _ => some 0, true⟩ [10, 20, 30] 1 1 = some (true, []) :=
  ⟨headerWrites .x64 1 1 ++ [[30, 20, 10, 0]], by decide, by decide, by decide⟩

/-- C8, amended: for dimensions that fit and a pixel buffer of the right length, `WriteBMP`
returns `true` exactly when `fopen` and `fclose` both succeed, whatever the `fwrite` calls
return; it returns `false` with nothing written when `fopen` fails. The bytes it passes to
`fwrite` are `54 + (xsize * 3 + skip) * ysize` in all, and when no write is short they are
the contents of the file. -/
theorem WriteBMP_result (t : Target) (s : Sink) (pixels : List Byte) (xsize ysize : Nat)
    (hx : 0 < xsize) (hy : 0 < ysize) (hp : pixels.length = xsize * ysize * 3)
    (hfit : 54 + (xsize * 3 + skip t xsize) * ysize < 2 ^ 32) :
    ∃ calls, fwriteCalls t pixels xsize ysize = some calls ∧
      calls.flatten.length = 54 + (xsize * 3 + skip t xsize) * ysize ∧
      WriteBMP t s pixels xsize ysize
        = some (s.fopenOk && s.fcloseOk, if s.fopenOk = true then s.contents 0 calls else []) ∧
      ((∀ i, s.shortWrite i = none) → s.contents 0 calls = calls.flatten) := by
  obtain ⟨data, hd, hlen, _, _⟩ := pixelData_spec ⟨hx, hy, hfit⟩ hp
  have hcalls : fwriteCalls t pixels xsize ysize = some (headerWrites t xsize ysize ++ [data]) := by
    simp [fwriteCalls, hd]
  refine ⟨_, hcalls, ?_, ?_, ?_⟩
  · have : (headerWrites t xsize ysize ++ [data]).flatten = headerBytes t xsize ysize ++ data := by
      simp [headerBytes]
    rw [this, List.length_append, headerBytes_length, hlen]
  · unfold WriteBMP
    rw [hcalls]
    cases ho : s.fopenOk <;> cases hc : s.fcloseOk <;> simp
  · intro hall
    exact contents_of_no_short s hall 0 _

/-- C8 amended, at the 1x1 image on a file whose every write is short but which opens and
closes: the hypotheses hold and `WriteBMP` returns `true`. -/
theorem WriteBMP_result_witness :
    (0 < 1 ∧ ([10, 20, 30] : List Byte).length = 1 * 1 * 3
      ∧ 54 + (1 * 3 + skip .x64 1) * 1 < 2 ^ 32) ∧
    ∃ file, WriteBMP .x64 ⟨true, fun _ => some 1, true⟩ [10, 20, 30] 1 1 = some (true, file) := by
  refine ⟨by decide, ?_⟩
  obtain ⟨calls, _, _, hw, _⟩ := WriteBMP_result .x64 ⟨true, fun _ => some 1, true⟩
    [10, 20, 30] 1 1 (by decide) (by decide) (by decide) (by decide)
  exact ⟨_, hw⟩

/-! ## The properties of the specification: DecodeJpegXlOneShot -/

/-- C9: let the codec's rounds be `pre`, then `ev`, then `post`, where every round of `pre`
has a status the loop goes on after (`BASIC_INFO`, `NEED_IMAGE_OUT_BUFFER`, `COLOR_ENCODING`,
`FULL_IMAGE`), all its queries succeed and every sink request reports the matching size,
and `ev` is the first round with any other status. Then `DecodeJpegXlOneShot` returns at
`ev`, leaving exactly `post` unconsumed, and it returns `true` if `ev` is `SUCCESS` and
`false` if `ev` is `ERROR`, `NEED_MORE_INPUT` or an unknown status. -/
theorem DecodeJpegXlOneShot_first_terminal (t : Target) (codec : Codec) (pixels : List Byte)
    (xsize ysize : Nat) (pre : List Event) (ev : Event) (post : List Event)
    (hsub : codec.subscribeOk = true) (hrun : codec.setRunnerOk = true)
    (hev : codec.events = pre ++ ev :: post)
    (hpre : ∀ e ∈ pre, e.continues = true ∧ e.queriesOk = true)
    (hsz : sizesMatch t xsize ysize pre = true)
    (hterm : ev.continues = false) :
    ∃ st, advance t (initialState pixels xsize ysize) pre = some st ∧
      DecodeJpegXlOneShot t codec pixels xsize ysize
        = some (decide (ev = .JXL_DEC_SUCCESS), st, post) := by
  obtain ⟨st, hst⟩ := advance_of_ok t (initialState pixels xsize ysize) pre hpre hsz
  refine ⟨st, hst, ?_⟩
  unfold DecodeJpegXlOneShot
  rw [hsub, hrun, hev, decodeLoop_of_advance hst]
  simp only [Bool.true_eq_false, if_false]
  unfold decodeLoop
  rw [handle_terminal t st hterm]

/-- C9, on the rounds `BASIC_INFO` (2x1), sink request (6 bytes), `FULL_IMAGE`, `SUCCESS`,
`ERROR`: the hypotheses hold, the call returns `true` at `SUCCESS` and leaves `ERROR`
unconsumed. -/
theorem DecodeJpegXlOneShot_first_terminal_witness :
    sizesMatch .x64 0 0 [.JXL_DEC_BASIC_INFO true 2 1 1,
      .JXL_DEC_NEED_IMAGE_OUT_BUFFER true 6 true, .JXL_DEC_FULL_IMAGE] = true ∧
    ∃ st, DecodeJpegXlOneShot .x64
        ⟨true, true, [.JXL_DEC_BASIC_INFO true 2 1 1, .JXL_DEC_NEED_IMAGE_OUT_BUFFER true 6 true,
          .JXL_DEC_FULL_IMAGE, .JXL_DEC_SUCCESS, .JXL_DEC_ERROR]⟩ [] 0 0
      = some (true, st, [.JXL_DEC_ERROR]) := by
  refine ⟨by decide, ?_⟩
  obtain ⟨st, _, h⟩ := DecodeJpegXlOneShot_first_terminal .x64
    ⟨true, true, [.JXL_DEC_BASIC_INFO true 2 1 1, .JXL_DEC_NEED_IMAGE_OUT_BUFFER true 6 true,
      .JXL_DEC_FULL_IMAGE, .JXL_DEC_SUCCESS, .JXL_DEC_ERROR]⟩ [] 0 0
    [.JXL_DEC_BASIC_INFO true 2 1 1, .JXL_DEC_NEED_IMAGE_OUT_BUFFER true 6 true,
      .JXL_DEC_FULL_IMAGE] .JXL_DEC_SUCCESS [.JXL_DEC_ERROR] rfl rfl rfl
    (by decide) (by decide) rfl
  exact ⟨st, h⟩

/-- C10: if the loop has reached state `st` and the next round is a sink request whose
reported size differs from `xsize * ysize * 3` computed (on `size_t`) from the dimensions
recorded in `st`, `DecodeJpegXlOneShot` returns `false` at that round and the state at the
return is `st` itself: the pixel buffer is not resized and not registered with the codec. -/
theorem DecodeJpegXlOneShot_size_mismatch (t : Target) (codec : Codec) (pixels : List Byte)
    (xsize ysize : Nat) (pre post : List Event) (st : DecodeState)
    (sizeOk : Bool) (buffer_size : Nat) (setOk : Bool)
    (hsub : codec.subscribeOk = true) (hrun : codec.setRunnerOk = true)
    (hev : codec.events
      = pre ++ .JXL_DEC_NEED_IMAGE_OUT_BUFFER sizeOk buffer_size setOk :: post)
    (hst : advance t (initialState pixels xsize ysize) pre = some st)
    (hne : buffer_size ≠ mulZ t (mulZ t st.xsize st.ysize) 3) :
    handle t st (.JXL_DEC_NEED_IMAGE_OUT_BUFFER sizeOk buffer_size setOk)
      = .returned false st ∧
    DecodeJpegXlOneShot t codec pixels xsize ysize = some (false, st, post) := by
  have hh : handle t st (.JXL_DEC_NEED_IMAGE_OUT_BUFFER sizeOk buffer_size setOk)
      = .returned false st := by
    cases sizeOk <;> simp [handle, hne]
  refine ⟨hh, ?_⟩
  unfold DecodeJpegXlOneShot
  rw [hsub, hrun, hev, decodeLoop_of_advance hst]
  simp only [Bool.true_eq_false, if_false]
  unfold decodeLoop
  rw [hh]

/-- C10, on the rounds `BASIC_INFO` (2x1), then a sink request reporting 8 bytes instead of
6, with a caller's buffer `[7]`: the call returns `false` and the buffer is still `[7]`. -/
theorem DecodeJpegXlOneShot_size_mismatch_witness :
    (8 ≠ mulZ .x64 (mulZ .x64 2 1) 3) ∧
    DecodeJpegXlOneShot .x64
        ⟨true, true, [.JXL_DEC_BASIC_INFO true 2 1 1, .JXL_DEC_NEED_IMAGE_OUT_BUFFER true 8 true,
          .JXL_DEC_SUCCESS]⟩ [7] 0 0
      = some (false, ⟨2, 1, [7], [], some 1, none⟩, [.JXL_DEC_SUCCESS]) :=
  ⟨by decide, (DecodeJpegXlOneShot_size_mismatch .x64
    ⟨true, true, [.JXL_DEC_BASIC_INFO true 2 1 1, .JXL_DEC_NEED_IMAGE_OUT_BUFFER true 8 true,
      .JXL_DEC_SUCCESS]⟩ [7] 0 0 [.JXL_DEC_BASIC_INFO true 2 1 1] [.JXL_DEC_SUCCESS]
    ⟨2, 1, [7], [], some 1, none⟩ true 8 true rfl rfl rfl rfl (by decide)).2⟩

/-- C11 as stated fails: on the single round `SUCCESS` the call returns `true` with the
caller's dimensions 0 and 0; on `BASIC_INFO` (2x1) then `SUCCESS`, with no sink request, it
returns `true` with dimensions 2 and 1 and an empty pixel buffer. -/
theorem DecodeJpegXlOneShot_success_unchecked :
    DecodeJpegXlOneShot .x64 ⟨true, true, [.JXL_DEC_SUCCESS]⟩ [] 0 0
      = some (true, ⟨0, 0, [], [], none, none⟩, []) ∧
    DecodeJpegXlOneShot .x64
        ⟨true, true, [.JXL_DEC_BASIC_INFO true 2 1 1, .JXL_DEC_SUCCESS]⟩ [] 0 0
      = some (true, ⟨2, 1, [], [], some 1, none⟩, []) :=
  ⟨by decide, by decide⟩

/-- C11, amended: when `DecodeJpegXlOneShot` returns `true` and the last basic-info event
it consumed reported `w > 0` and `h > 0` and was followed by a sink request, the returned
dimensions are `w` and `h`, both positive, and the returned pixel buffer has length
`w * h * 3` computed on `size_t`, which is exactly `w * h * 3` when that fits `size_t`. -/
theorem DecodeJpegXlOneShot_success_dimensions (t : Target) (codec : Codec)
    (pixels : List Byte) (xsize ysize : Nat) (pre tail post : List Event)
    (getOk : Bool) (w h n : Nat) (st : DecodeState)
    (hev : codec.events = pre ++ .JXL_DEC_BASIC_INFO getOk w h n :: tail ++ post)
    (hno : ∀ e ∈ tail, e.isBasicInfo = false)
    (hsink : ∃ e ∈ tail, e.isSinkRequest = true)
    (hw : 0 < w) (hh : 0 < h)
    (hret : DecodeJpegXlOneShot t codec pixels xsize ysize = some (true, st, post)) :
    st.xsize = w ∧ st.ysize = h ∧ 0 < st.xsize ∧ 0 < st.ysize ∧
      st.pixels.length = mulZ t (mulZ t w h) 3 ∧
      (w * h * 3 < t.size → st.pixels.length = w * h * 3) := by
  have hne : tail ≠ [] := by
    obtain ⟨e, he, _⟩ := hsink
    exact List.ne_nil_of_mem he
  obtain ⟨s0, s1, s2, L, last, hL, _, hbi, hadv, hlast⟩ := DecodeJpegXlOneShot_tail hev hne hret
  obtain ⟨hsucc, hst⟩ := handle_returned_true hlast
  subst hst hsucc
  obtain ⟨hx1, hy1, _⟩ := handle_basicInfo_running hbi
  have hnoL : ∀ e ∈ L, e.isBasicInfo = false := fun e he =>
    hno e (by rw [hL]; exact List.mem_append_left _ he)
  obtain ⟨hx2, hy2⟩ := advance_dims hnoL hadv
  have hsinkL : ∃ e ∈ L, e.isSinkRequest = true := by
    obtain ⟨e, he, hk⟩ := hsink
    rw [hL] at he
    rcases List.mem_append.mp he with h1 | h1
    · exact ⟨e, h1, hk⟩
    · have : e = .JXL_DEC_SUCCESS := by simpa using h1
      rw [this] at hk
      cases hk
  obtain ⟨e, heL, hk⟩ := hsinkL
  obtain ⟨a, b, hab⟩ := List.append_of_mem heL
  have hsz : Sized t st := by
    cases e with
    | JXL_DEC_NEED_IMAGE_OUT_BUFFER sizeOk buffer_size setOk =>
      rw [hab] at hadv
      obtain ⟨sa, _, h2⟩ := advance_append hadv
      have hnob : ∀ e ∈ b, e.isBasicInfo = false := fun e he =>
        hnoL e (by rw [hab]; exact List.mem_append_right _ (List.mem_cons_of_mem _ he))
      obtain ⟨_, _, _, _, _, _, _, hs⟩ := advance_after_sink hnob h2
      exact hs
    | JXL_DEC_BASIC_INFO _ _ _ _ => cases hk
    | JXL_DEC_COLOR_ENCODING _ _ _ _ => cases hk
    | JXL_DEC_SUCCESS => cases hk
    | JXL_DEC_ERROR => cases hk
    | JXL_DEC_NEED_MORE_INPUT => cases hk
    | JXL_DEC_FULL_IMAGE => cases hk
    | other _ => cases hk
  have hx : st.xsize = w := hx2.trans hx1
  have hy : st.ysize = h := hy2.trans hy1
  have hlen : st.pixels.length = mulZ t (mulZ t w h) 3 := by
    have := hsz
    unfold Sized at this
    rw [hx, hy] at this
    exact this
  refine ⟨hx, hy, by rw [hx]; exact hw, by rw [hy]; exact hh, hlen, ?_⟩
  intro hfit
  rw [hlen]
  unfold mulZ
  have h1 : w * h < t.size := by
    have : w * h ≤ w * h * 3 := Nat.le_mul_of_pos_right _ (by decide)
    omega
  rw [Nat.mod_eq_of_lt h1, Nat.mod_eq_of_lt hfit]

/-- C11 amended, on the rounds `BASIC_INFO` (2x1), sink request (6 bytes), `FULL_IMAGE`,
`SUCCESS`: the returned dimensions are 2 and 1 and the buffer has 6 bytes. -/
theorem DecodeJpegXlOneShot_success_dimensions_witness :
    ∃ st, DecodeJpegXlOneShot .x64
        ⟨true, true, [.JXL_DEC_BASIC_INFO true 2 1 1, .JXL_DEC_NEED_IMAGE_OUT_BUFFER true 6 true,
          .JXL_DEC_FULL_IMAGE, .JXL_DEC_SUCCESS]⟩ [] 0 0 = some (true, st, []) ∧
      st.xsize = 2 ∧ st.ysize = 1 ∧ st.pixels.length = 2 * 1 * 3 := by
  have hret : DecodeJpegXlOneShot .x64
      ⟨true, true, [.JXL_DEC_BASIC_INFO true 2 1 1, .JXL_DEC_NEED_IMAGE_OUT_BUFFER true 6 true,
        .JXL_DEC_FULL_IMAGE, .JXL_DEC_SUCCESS]⟩ [] 0 0
      = some (true, ⟨2, 1, [0, 0, 0, 0, 0, 0], [], some 1, some 6⟩, []) := by decide
  have h := DecodeJpegXlOneShot_success_dimensions .x64
    ⟨true, true, [.JXL_DEC_BASIC_INFO true 2 1 1, .JXL_DEC_NEED_IMAGE_OUT_BUFFER true 6 true,
      .JXL_DEC_FULL_IMAGE, .JXL_DEC_SUCCESS]⟩ [] 0 0 []
    [.JXL_DEC_NEED_IMAGE_OUT_BUFFER true 6 true, .JXL_DEC_FULL_IMAGE, .JXL_DEC_SUCCESS] []
    true 2 1 1 _ rfl (by decide) (by decide) (by decide) (by decide) hret
  exact ⟨_, hret, h.1, h.2.1, h.2.2.2.2.2 (by decide)⟩

/-- C12 as stated fails: on `BASIC_INFO` (2x1), `BASIC_INFO` (3x3), `SUCCESS`, the
dimensions recorded after the first basic-info event are 2 and 1, and the second one
changes them: the call returns 3 and 3. -/
theorem DecodeJpegXlOneShot_dimensions_overwritten :
    advance .x64 (initialState [] 0 0) [.JXL_DEC_BASIC_INFO true 2 1 1]
      = some ⟨2, 1, [], [], some 1, none⟩ ∧
    DecodeJpegXlOneShot .x64
        ⟨true, true, [.JXL_DEC_BASIC_INFO true 2 1 1, .JXL_DEC_BASIC_INFO true 3 3 1,
          .JXL_DEC_SUCCESS]⟩ [] 0 0
      = some (true, ⟨3, 3, [], [], some 1, none⟩, []) :=
  ⟨by decide, by decide⟩

/-- C12, amended: the recorded width and height are changed by basic-info events only. No
round that is not a basic-info event changes them, and when `DecodeJpegXlOneShot` returns,
they are the dimensions reported by the last basic-info event it consumed: with a single
basic-info event in the session they are populated once and fixed for the remainder. -/
theorem DecodeJpegXlOneShot_dimensions_fixed (t : Target) (codec : Codec)
    (pixels : List Byte) (xsize ysize : Nat) (pre tail post : List Event)
    (w h n : Nat) (ok : Bool) (st : DecodeState)
    (hev : codec.events = pre ++ .JXL_DEC_BASIC_INFO true w h n :: tail ++ post)
    (hno : ∀ e ∈ tail, e.isBasicInfo = false)
    (hret : DecodeJpegXlOneShot t codec pixels xsize ysize = some (ok, st, post)) :
    (st.xsize = w ∧ st.ysize = h) ∧
    (∀ (s : DecodeState) (ev : Event), ev.isBasicInfo = false →
      (handle t s ev).state.xsize = s.xsize ∧ (handle t s ev).state.ysize = s.ysize) := by
  refine ⟨?_, fun s ev hev2 => handle_dims t s hev2⟩
  by_cases hne : tail = []
  · exfalso
    subst hne
    obtain ⟨init, last, s1, he, _, hl⟩ := DecodeJpegXlOneShot_consumed hev (by simp) hret
    obtain ⟨_, hb⟩ := List.append_inj' he rfl
    have hb2 : Event.JXL_DEC_BASIC_INFO true w h n = last := by simpa using hb
    subst hb2
    simp [handle] at hl
  · obtain ⟨s0, s1, s2, L, last, hL, _, hbi, hadv, hlast⟩ :=
      DecodeJpegXlOneShot_tail hev hne hret
    obtain ⟨hx1, hy1, _⟩ := handle_basicInfo_running hbi
    have hnoL : ∀ e ∈ L, e.isBasicInfo = false := fun e he =>
      hno e (by rw [hL]; exact List.mem_append_left _ he)
    obtain ⟨hx2, hy2⟩ := advance_dims hnoL hadv
    have hd := handle_dims t s2 (hno last (by rw [hL]; simp))
    rw [hlast] at hd
    exact ⟨hd.1.trans (hx2.trans hx1), hd.2.trans (hy2.trans hy1)⟩

/-- C12 amended, on `BASIC_INFO` (2x1), sink request (6 bytes), `SUCCESS`: the returned
dimensions are 2 and 1. -/
theorem DecodeJpegXlOneShot_dimensions_fixed_witness :
    ∃ st, DecodeJpegXlOneShot .x64
        ⟨true, true, [.JXL_DEC_BASIC_INFO true 2 1 1, .JXL_DEC_NEED_IMAGE_OUT_BUFFER true 6 true,
          .JXL_DEC_SUCCESS]⟩ [] 0 0 = some (true, st, []) ∧
      st.xsize = 2 ∧ st.ysize = 1 := by
  have hret : DecodeJpegXlOneShot .x64
      ⟨true, true, [.JXL_DEC_BASIC_INFO true 2 1 1, .JXL_DEC_NEED_IMAGE_OUT_BUFFER true 6 true,
        .JXL_DEC_SUCCESS]⟩ [] 0 0
      = some (true, ⟨2, 1, [0, 0, 0, 0, 0, 0], [], some 1, some 6⟩, []) := by decide
  have h := DecodeJpegXlOneShot_dimensions_fixed .x64
    ⟨true, true, [.JXL_DEC_BASIC_INFO true 2 1 1, .JXL_DEC_NEED_IMAGE_OUT_BUFFER true 6 true,
      .JXL_DEC_SUCCESS]⟩ [] 0 0 []
    [.JXL_DEC_NEED_IMAGE_OUT_BUFFER true 6 true, .JXL_DEC_SUCCESS] []
    2 1 1 true _ rfl (by decide) hret
  exact ⟨_, hret, h.1.1, h.1.2⟩

/-- C13 as stated fails: on `BASIC_INFO` (2x1), sink request (6), `BASIC_INFO` (1x1), sink
request (3), `SUCCESS`, the first sink request leaves the pixel buffer with 6 bytes and the
second resizes it: the call returns a buffer of 3 bytes. -/
theorem DecodeJpegXlOneShot_buffer_resized :
    ∃ s1 st,
      advance .x64 (initialState [] 0 0)
          [.JXL_DEC_BASIC_INFO true 2 1 1, .JXL_DEC_NEED_IMAGE_OUT_BUFFER true 6 true]
        = some s1 ∧
      s1.pixels.length = 6 ∧
      DecodeJpegXlOneShot .x64
          ⟨true, true, [.JXL_DEC_BASIC_INFO true 2 1 1,
            .JXL_DEC_NEED_IMAGE_OUT_BUFFER true 6 true, .JXL_DEC_BASIC_INFO true 1 1 1,
            .JXL_DEC_NEED_IMAGE_OUT_BUFFER true 3 true, .JXL_DEC_SUCCESS]⟩ [] 0 0
        = some (true, st, []) ∧
      st.pixels.length = 3 :=
  ⟨⟨2, 1, [0, 0, 0, 0, 0, 0], [], some 1, some 6⟩, ⟨1, 1, [0, 0, 0], [], some 1, some 3⟩,
    by decide, by decide, by decide, by decide⟩

/-- C13, amended: the pixel buffer is resized by sink requests only. A sink request the
loop goes on after leaves it with the length `xsize * ysize * 3`, computed on `size_t`, of
the dimensions recorded then (the size the codec reported), and when no basic-info event
follows, the buffer `DecodeJpegXlOneShot` returns has that length: no later round, a further
sink request included, gives it another length. No round that is not a sink request changes
its length. -/
theorem DecodeJpegXlOneShot_buffer_fixed (t : Target) (codec : Codec)
    (pixels : List Byte) (xsize ysize : Nat) (pre tail post : List Event)
    (sizeOk : Bool) (buffer_size : Nat) (setOk : Bool) (ok : Bool) (st : DecodeState)
    (hev : codec.events
      = pre ++ .JXL_DEC_NEED_IMAGE_OUT_BUFFER sizeOk buffer_size setOk :: tail ++ post)
    (hne : tail ≠ [])
    (hno : ∀ e ∈ tail, e.isBasicInfo = false)
    (hret : DecodeJpegXlOneShot t codec pixels xsize ysize = some (ok, st, post)) :
    (∃ s0 s1, advance t (initialState pixels xsize ysize) pre = some s0 ∧
      handle t s0 (.JXL_DEC_NEED_IMAGE_OUT_BUFFER sizeOk buffer_size setOk) = .running s1 ∧
      s1.pixels.length = mulZ t (mulZ t s1.xsize s1.ysize) 3 ∧
      s1.pixels.length = buffer_size ∧
      st.pixels.length = s1.pixels.length) ∧
    (∀ (s : DecodeState) (ev : Event), ev.isSinkRequest = false →
      (handle t s ev).state.pixels.length = s.pixels.length) := by
  refine ⟨?_, fun s ev hev2 => by rw [(handle_pixels_of_not_sink t s hev2).1]⟩
  obtain ⟨s0, s1, s2, L, last, hL, h0, hsink, hadv, hlast⟩ :=
    DecodeJpegXlOneShot_tail hev hne hret
  obtain ⟨hx, hy, hb, hl⟩ := handle_sink_running hsink
  have hs1 : Sized t s1 := by
    unfold Sized
    rw [hl, hb, hx, hy]
  have hnoL : ∀ e ∈ L, e.isBasicInfo = false := fun e he =>
    hno e (by rw [hL]; exact List.mem_append_left _ he)
  have hd := advance_dims hnoL hadv
  have hp := advance_pixels_of_sized hnoL hs1 hadv
  have hs2 : Sized t s2 := sized_of_eq hs1 hd.1 hd.2 hp
  have hlastp := handle_pixels_of_sized t (hno last (by rw [hL]; simp)) hs2
  rw [hlast] at hlastp
  have hfin : st.pixels = s1.pixels := hlastp.trans hp
  exact ⟨s0, s1, h0, hsink, hs1, hl, by rw [hfin]⟩

/-- C13 amended, on `BASIC_INFO` (2x1), sink request (6), a second sink request (6),
`SUCCESS`: the returned buffer has the 6 bytes of the first sink request. -/
theorem DecodeJpegXlOneShot_buffer_fixed_witness :
    ∃ st, DecodeJpegXlOneShot .x64
        ⟨true, true, [.JXL_DEC_BASIC_INFO true 2 1 1, .JXL_DEC_NEED_IMAGE_OUT_BUFFER true 6 true,
          .JXL_DEC_NEED_IMAGE_OUT_BUFFER true 6 true, .JXL_DEC_SUCCESS]⟩ [] 0 0
        = some (true, st, []) ∧
      st.pixels.length = 6 := by
  have hret : DecodeJpegXlOneShot .x64
      ⟨true, true, [.JXL_DEC_BASIC_INFO true 2 1 1, .JXL_DEC_NEED_IMAGE_OUT_BUFFER true 6 true,
        .JXL_DEC_NEED_IMAGE_OUT_BUFFER true 6 true, .JXL_DEC_SUCCESS]⟩ [] 0 0
      = some (true, ⟨2, 1, [0, 0, 0, 0, 0, 0], [], some 1, some 6⟩, []) := by decide
  obtain ⟨⟨s0, s1, _, _, _, hl, hp⟩, _⟩ := DecodeJpegXlOneShot_buffer_fixed .x64
    ⟨true, true, [.JXL_DEC_BASIC_INFO true 2 1 1, .JXL_DEC_NEED_IMAGE_OUT_BUFFER true 6 true,
      .JXL_DEC_NEED_IMAGE_OUT_BUFFER true 6 true, .JXL_DEC_SUCCESS]⟩ [] 0 0
    [.JXL_DEC_BASIC_INFO true 2 1 1]
    [.JXL_DEC_NEED_IMAGE_OUT_BUFFER true 6 true, .JXL_DEC_SUCCESS] []
    true 6 true true _ rfl (by decide) (by decide) hret
  exact ⟨_, hret, by rw [hp, hl]⟩

/-- C14: one round of the loop. A `FULL_IMAGE` event changes nothing and the loop goes on.
A `COLOR_ENCODING` event changes only the color-profile holder. A `BASIC_INFO` event changes
only the dimensions and the thread count, never the pixel buffer. A sink request changes
only the pixel buffer (and its registration with the codec), never the dimensions. -/
theorem handle_frame (t : Target) (st : DecodeState) :
    handle t st .JXL_DEC_FULL_IMAGE = .running st ∧
    (∀ (sizeOk : Bool) (icc_size : Nat) (getOk : Bool) (profile : List Byte),
      (handle t st (.JXL_DEC_COLOR_ENCODING sizeOk icc_size getOk profile)).state.xsize
        = st.xsize ∧
      (handle t st (.JXL_DEC_COLOR_ENCODING sizeOk icc_size getOk profile)).state.ysize
        = st.ysize ∧
      (handle t st (.JXL_DEC_COLOR_ENCODING sizeOk icc_size getOk profile)).state.pixels
        = st.pixels ∧
      (handle t st (.JXL_DEC_COLOR_ENCODING sizeOk icc_size getOk profile)).state.threads
        = st.threads ∧
      (handle t st (.JXL_DEC_COLOR_ENCODING sizeOk icc_size getOk profile)).state.outBuffer
        = st.outBuffer) ∧
    (∀ (getOk : Bool) (x y n : Nat),
      (handle t st (.JXL_DEC_BASIC_INFO getOk x y n)).state.pixels = st.pixels ∧
      (handle t st (.JXL_DEC_BASIC_INFO getOk x y n)).state.icc_profile = st.icc_profile ∧
      (handle t st (.JXL_DEC_BASIC_INFO getOk x y n)).state.outBuffer = st.outBuffer) ∧
    (∀ (sizeOk : Bool) (buffer_size : Nat) (setOk : Bool),
      (handle t st (.JXL_DEC_NEED_IMAGE_OUT_BUFFER sizeOk buffer_size setOk)).state.xsize
        = st.xsize ∧
      (handle t st (.JXL_DEC_NEED_IMAGE_OUT_BUFFER sizeOk buffer_size setOk)).state.ysize
        = st.ysize ∧
      (handle t st (.JXL_DEC_NEED_IMAGE_OUT_BUFFER sizeOk buffer_size setOk)).state.icc_profile
        = st.icc_profile ∧
      (handle t st (.JXL_DEC_NEED_IMAGE_OUT_BUFFER sizeOk buffer_size setOk)).state.threads
        = st.threads) := by
  refine ⟨rfl, ?_, ?_, ?_⟩
  · intro sizeOk icc_size getOk profile
    cases sizeOk <;> cases getOk <;> simp [handle, Outcome.state]
  · intro getOk x y n
    cases getOk <;> simp [handle, Outcome.state]
  · intro sizeOk buffer_size setOk
    by_cases hb : buffer_size = mulZ t (mulZ t st.xsize st.ysize) 3 <;>
      cases sizeOk <;> cases setOk <;> simp [handle, Outcome.state, hb]

/-- C15: when `DecodeJpegXlOneShot` returns `true` having consumed a sink request after
which it consumed no basic-info event, the returned pixel buffer has length
`xsize * ysize * 3`, computed on `size_t`, for the returned dimensions, and that length is
the size the codec reported at the sink request. -/
theorem DecodeJpegXlOneShot_success_buffer_length (t : Target) (codec : Codec)
    (pixels : List Byte) (xsize ysize : Nat) (pre mid post : List Event)
    (sizeOk : Bool) (buffer_size : Nat) (setOk : Bool) (st : DecodeState)
    (hev : codec.events
      = pre ++ .JXL_DEC_NEED_IMAGE_OUT_BUFFER sizeOk buffer_size setOk :: mid ++ post)
    (hno : ∀ e ∈ mid, e.isBasicInfo = false)
    (hret : DecodeJpegXlOneShot t codec pixels xsize ysize = some (true, st, post)) :
    st.pixels.length = mulZ t (mulZ t st.xsize st.ysize) 3 ∧
      st.pixels.length = buffer_size := by
  by_cases hne : mid = []
  · exfalso
    subst hne
    obtain ⟨init, last, s1, he, _, hl⟩ := DecodeJpegXlOneShot_consumed hev (by simp) hret
    obtain ⟨_, hb⟩ := List.append_inj' he rfl
    have hb2 : Event.JXL_DEC_NEED_IMAGE_OUT_BUFFER sizeOk buffer_size setOk = last := by
      simpa using hb
    subst hb2
    have := (handle_returned_true hl).1
    cases this
  · obtain ⟨s0, s1, s2, L, last, hL, _, hsink, hadv, hlast⟩ :=
      DecodeJpegXlOneShot_tail hev hne hret
    obtain ⟨_, hst⟩ := handle_returned_true hlast
    subst hst
    obtain ⟨hx, hy, hb, hl⟩ := handle_sink_running hsink
    have hs1 : Sized t s1 := by
      unfold Sized
      rw [hl, hb, hx, hy]
    have hnoL : ∀ e ∈ L, e.isBasicInfo = false := fun e he =>
      hno e (by rw [hL]; exact List.mem_append_left _ he)
    have hd := advance_dims hnoL hadv
    have hp := advance_pixels_of_sized hnoL hs1 hadv
    have hs2 : Sized t st := sized_of_eq hs1 hd.1 hd.2 hp
    exact ⟨hs2, by rw [hp]; exact hl⟩

/-- C15, on `BASIC_INFO` (2x1), sink request (6 bytes), `COLOR_ENCODING`, `FULL_IMAGE`,
`SUCCESS`: the call returns `true` and the buffer has the 6 bytes the codec reported. -/
theorem DecodeJpegXlOneShot_success_buffer_length_witness :
    ∃ st, DecodeJpegXlOneShot .x64
        ⟨true, true, [.JXL_DEC_BASIC_INFO true 2 1 1, .JXL_DEC_NEED_IMAGE_OUT_BUFFER true 6 true,
          .JXL_DEC_COLOR_ENCODING true 2 true [1, 2], .JXL_DEC_FULL_IMAGE,
          .JXL_DEC_SUCCESS]⟩ [] 0 0 = some (true, st, []) ∧
      st.pixels.length = mulZ .x64 (mulZ .x64 st.xsize st.ysize) 3 ∧ st.pixels.length = 6 := by
  have hret : DecodeJpegXlOneShot .x64
      ⟨true, true, [.JXL_DEC_BASIC_INFO true 2 1 1, .JXL_DEC_NEED_IMAGE_OUT_BUFFER true 6 true,
        .JXL_DEC_COLOR_ENCODING true 2 true [1, 2], .JXL_DEC_FULL_IMAGE,
        .JXL_DEC_SUCCESS]⟩ [] 0 0
      = some (true, ⟨2, 1, [0, 0, 0, 0, 0, 0], [1, 2], some 1, some 6⟩, []) := by decide
  have h := DecodeJpegXlOneShot_success_buffer_length .x64
    ⟨true, true, [.JXL_DEC_BASIC_INFO true 2 1 1, .JXL_DEC_NEED_IMAGE_OUT_BUFFER true 6 true,
      .JXL_DEC_COLOR_ENCODING true 2 true [1, 2], .JXL_DEC_FULL_IMAGE,
      .JXL_DEC_SUCCESS]⟩ [] 0 0 [.JXL_DEC_BASIC_INFO true 2 1 1]
    [.JXL_DEC_COLOR_ENCODING true 2 true [1, 2], .JXL_DEC_FULL_IMAGE, .JXL_DEC_SUCCESS] []
    true 6 true _ rfl (by decide) hret
  exact ⟨_, hret, h.1, h.2⟩

/-! ## The properties of the specification: sizes and bounds in WriteBMP -/

/-- C16: for positive dimensions whose file size fits 31 bits and a pixel buffer of length
`xsize * ysize * 3`, the loops run over `y < ysize`, `x < xsize`, `c = 2, 1, 0`, every
destination offset `((ysize - y - 1) * xsize + x) * 3 + (2 - c) + (ysize - y - 1) * skip`
they use is below the length of `data` and every source offset `(y * xsize + x) * 3 + c` is
below the length of the pixel buffer; so no access fails and the loops yield `data`. -/
theorem WriteBMP_copy_in_bounds (t : Target) (pixels : List Byte) (xsize ysize : Nat)
    (hx : 0 < xsize) (hy : 0 < ysize) (hp : pixels.length = xsize * ysize * 3)
    (hfit : 54 + (xsize * 3 + skip t xsize) * ysize < 2 ^ 31) :
    (toInt ysize).toNat = ysize ∧ (toInt xsize).toNat = xsize ∧
    (∀ y x c, y < ysize → x < xsize → c ≤ 2 →
      dstIndex t xsize ysize y x c < dataSize t xsize ysize ∧
      srcIndex t xsize y x c < pixels.length) ∧
    ∃ data, pixelData t pixels xsize ysize = some data ∧
      data.length = dataSize t xsize ysize := by
  have hf := fits_of_lt hx hy hfit
  refine ⟨?_, ?_, ?_, ?_⟩
  · rw [toInt_of_lt hf.ysize_lt, Int.toNat_ofNat]
  · rw [toInt_of_lt hf.xsize_lt, Int.toNat_ofNat]
  · intro y x c hyy hxx hc
    rw [dstIndex_eq hf hyy hxx, srcIndex_eq hf hyy hxx, dataSize_eq hf, hp]
    have h1 : (ysize - 1 - y + 1) * (xsize * 3 + skip t xsize)
        ≤ ysize * (xsize * 3 + skip t xsize) := Nat.mul_le_mul_right _ (by omega)
    have h2 : (ysize - 1 - y + 1) * (xsize * 3 + skip t xsize)
        = (ysize - 1 - y) * (xsize * 3 + skip t xsize) + (xsize * 3 + skip t xsize) := by ring
    have h3 : ysize * (xsize * 3 + skip t xsize) = (xsize * 3 + skip t xsize) * ysize :=
      Nat.mul_comm _ _
    have h4 : (y + 1) * xsize ≤ ysize * xsize := Nat.mul_le_mul_right _ (by omega)
    have h5 : (y + 1) * xsize = y * xsize + xsize := by ring
    have h6 : ysize * xsize = xsize * ysize := Nat.mul_comm _ _
    constructor <;> omega
  · obtain ⟨data, hd, hlen, _, _⟩ := pixelData_spec hf hp
    exact ⟨data, hd, by rw [hlen, dataSize_eq hf]⟩

/-- C16, at the 2x2 image on x64: the hypotheses hold, and the first and the last copy
have their offsets inside the 16-byte `data` and the 12-byte pixel buffer. -/
theorem WriteBMP_copy_in_bounds_witness :
    (0 < 2 ∧ ([1, 2, 3, 4, 5, 6, 7, 8, 9, 10, 11, 12] : List Byte).length = 2 * 2 * 3
      ∧ 54 + (2 * 3 + skip .x64 2) * 2 < 2 ^ 31) ∧
    dataSize .x64 2 2 = 16 ∧
    dstIndex .x64 2 2 0 0 2 < 16 ∧ srcIndex .x64 2 0 0 2 < 12 ∧
    dstIndex .x64 2 2 1 1 0 < 16 ∧ srcIndex .x64 2 1 1 0 < 12 := by
  have h := (WriteBMP_copy_in_bounds .x64 [1, 2, 3, 4, 5, 6, 7, 8, 9, 10, 11, 12] 2 2
    (by decide) (by decide) (by decide) (by decide)).2.2.1
  have hd : dataSize .x64 2 2 = 16 := by decide
  have h1 := h 0 0 2 (by decide) (by decide) (by decide)
  have h2 := h 1 1 0 (by decide) (by decide) (by decide)
  rw [hd] at h1 h2
  exact ⟨by decide, hd, h1.1, h1.2, h2.1, h2.2⟩

/-- C17: for positive dimensions whose file size fits 32 bits, the 54 header bytes and the
size of the `data` vector add up to the file size `WriteBMP` stored in header bytes 2-5, and
`data` has `(xsize * 3 + skip) * ysize` bytes; for every pixel buffer of length
`xsize * ysize * 3` the file written is the header followed by `data`, as long as the
header declares. -/
theorem WriteBMP_bytes_written (t : Target) (xsize ysize : Nat)
    (hx : 0 < xsize) (hy : 0 < ysize)
    (hfit : 54 + (xsize * 3 + skip t xsize) * ysize < 2 ^ 32) :
    (headerBytes t xsize ysize).length = 54 ∧
    (headerBytes t xsize ysize).length + dataSize t xsize ysize
      = readLE (headerBytes t xsize ysize) 2 4 ∧
    dataSize t xsize ysize = (xsize * 3 + skip t xsize) * ysize ∧
    (∀ pixels : List Byte, pixels.length = xsize * ysize * 3 →
      ∃ file data, WriteBMP t Sink.faithful pixels xsize ysize = some (true, file) ∧
        file = headerBytes t xsize ysize ++ data ∧
        data.length = dataSize t xsize ysize ∧
        file.length = readLE file 2 4) := by
  have hf : Fits t xsize ysize := ⟨hx, hy, hfit⟩
  have hl := headerBytes_length t xsize ysize
  have hsz := bfSize_eq hf
  have hds := dataSize_eq hf
  have hrd : readLE (headerBytes t xsize ysize) 2 4
      = 54 + (xsize * 3 + skip t xsize) * ysize := by
    rw [readLE_header_field t xsize ysize [leBytes 2 (bmpheader t xsize ysize).bfType]
        _ 4 (bmpheader t xsize ysize).bfSize 2 rfl (by simp [length_leBytes]),
      hsz, Nat.mod_eq_of_lt (by omega)]
  refine ⟨hl, by rw [hl, hds, hrd], hds, ?_⟩
  intro pixels hp
  obtain ⟨data, hw, hlen, _, _⟩ := WriteBMP_file hf hp
  refine ⟨_, data, hw, rfl, by rw [hlen, hds], ?_⟩
  rw [readLE_append_left _ _ 2 4 (by omega), hrd, List.length_append, hl, hlen]

/-- C17, at the 2x1 image on x64: the hypotheses hold, and the file has the 62 bytes its
header declares, 8 of them pixel data. -/
theorem WriteBMP_bytes_written_witness :
    (0 < 2 ∧ 0 < 1 ∧ 54 + (2 * 3 + skip .x64 2) * 1 < 2 ^ 32) ∧
    dataSize .x64 2 1 = 8 ∧
    ∃ file, WriteBMP .x64 Sink.faithful [1, 2, 3, 4, 5, 6] 2 1 = some (true, file) ∧
      file.length = readLE file 2 4 ∧ file.length = 62 := by
  obtain ⟨hl, _, hd, hall⟩ := WriteBMP_bytes_written .x64 2 1
    (by decide) (by decide) (by decide)
  obtain ⟨file, data, hw, hfile, hdl, h1⟩ := hall [1, 2, 3, 4, 5, 6] (by decide)
  have hd8 : dataSize .x64 2 1 = 8 := by rw [hd]; decide
  refine ⟨by decide, hd8, file, hw, h1, ?_⟩
  rw [hfile, List.length_append, hl, hdl, hd8]

/-- C18: `xsize = 2 ^ 30` and `ysize = 2` both fit a signed 32-bit `int`, and
`54 + (xsize * 3 + skip) * ysize` is at least `2 ^ 32`. The 32-bit size field wraps to
`54 + 2 ^ 31`, the `data` vector gets `2 ^ 31` bytes, fewer than
`(xsize * 3 + skip) * ysize`, both loops run, and the destination offset of the first
`memcpy` (`y = 0`, `x = 0`, `c = 2`) is `3 * 2 ^ 30`, not below the length of `data`:
the copy loops leave the buffer, whatever the pixel buffer is. -/
theorem WriteBMP_size_field_wraps (t : Target) :
    ((2 : Nat) ^ 30 < 2 ^ 31 ∧ (2 : Nat) < 2 ^ 31) ∧
    2 ^ 32 ≤ 54 + (2 ^ 30 * 3 + skip t (2 ^ 30)) * 2 ∧
    (bmpheader t (2 ^ 30) 2).bfSize = 54 + 2 ^ 31 ∧
    (bmpheader t (2 ^ 30) 2).bfSize < 54 + (2 ^ 30 * 3 + skip t (2 ^ 30)) * 2 ∧
    dataSize t (2 ^ 30) 2 = 2 ^ 31 ∧
    dataSize t (2 ^ 30) 2 < (2 ^ 30 * 3 + skip t (2 ^ 30)) * 2 ∧
    (toInt 2).toNat = 2 ∧ (toInt (2 ^ 30)).toNat = 2 ^ 30 ∧
    dstIndex t (2 ^ 30) 2 0 0 2 = 3 * 2 ^ 30 ∧
    dataSize t (2 ^ 30) 2 ≤ dstIndex t (2 ^ 30) 2 0 0 2 ∧
    (∀ pixels : List Byte, pixelData t pixels (2 ^ 30) 2 = none) := by
  have hs : skip t (2 ^ 30) = 0 := by rw [skip_eq]; decide
  have hb : (bmpheader t (2 ^ 30) 2).bfSize = 54 + 2 ^ 31 := by
    rw [bfSize_mod, hs]; decide
  have hd : dataSize t (2 ^ 30) 2 = 2 ^ 31 := by
    have hoff : (bmpheader t (2 ^ 30) 2).bfOffBits = 54 := rfl
    unfold dataSize
    rw [hb, hoff]
    decide
  have hi : dstIndex t (2 ^ 30) 2 0 0 2 = 3 * 2 ^ 30 := by
    unfold dstIndex
    rw [hs]
    cases t <;> decide
  have hy : (toInt 2).toNat = 2 := by decide
  have hx : (toInt (2 ^ 30)).toNat = 2 ^ 30 := by decide
  refine ⟨by decide, ?_, hb, ?_, hd, ?_, hy, hx, hi, ?_, ?_⟩
  · rw [hs]; decide
  · rw [hb, hs]; decide
  · rw [hd, hs]; decide
  · rw [hd, hi]; decide
  · intro pixels
    unfold pixelData
    apply loopY_none_of_first
    · rw [hy]; decide
    · rw [hx]; decide
    · rw [List.length_replicate, hd, hi]; decide

end JxlDecode
